import Mathlib

/-!
Verification development for the query orchestration pipeline of
`src/services/queryService.ts` (the `kyte-ai` repository).

The sole source file is shallowly embedded below.  External collaborators
(OpenAI embeddings and chat completions, the MongoDB vector search backend,
the external enrichment API) are modelled as deterministic oracle functions
returning `Except` values: `.ok` models a resolved promise, `.error` a
rejected one.  Code of the repository that is imported by the orchestration
file but absent from the sources (`ConversationManager`, `summaryService`,
`utils/conversation`) is modelled from the spec where noted.

State held in module-level singletons (the two `NodeCache` instances and the
conversation memory) is threaded explicitly as a `SysState` value; a cache
entry being present in the model stands for an unexpired entry (TTL and
capacity eviction are owned by `NodeCache` and abstracted away).  Machine
`number` values that are only compared (vector scores) are modelled as `Int`.
-/

namespace QueryService

instance exceptDecEq {E T : Type} [DecidableEq E] [DecidableEq T] : DecidableEq (Except E T)
  | .ok x, .ok y =>
    if h : x = y then isTrue (by rw [h]) else isFalse (fun hc => h (Except.ok.inj hc))
  | .error x, .error y =>
    if h : x = y then isTrue (by rw [h]) else isFalse (fun hc => h (Except.error.inj hc))
  | .ok _, .error _ => isFalse Except.noConfusion
  | .error _, .ok _ => isFalse Except.noConfusion

/-! ## The retry wrapper

Source (`queryService.ts`, lines 51-60):

```ts
async function retry<T>(fn: () => Promise<T>, maxRetries = 3): Promise<T> {
  for (let i = 0; i < maxRetries; i++) {
    try {
      return await fn();
    } catch (error) {
      if (i === maxRetries - 1) throw error;
      await new Promise((res) => setTimeout(res, 1000 * Math.pow(2, i)));
    }
  }
}
```

`fn` is modelled as a function from the attempt index to the attempt's
outcome.  A `RetryTrace` records the observable behaviour of one `retry`
call: its final result (`none` models the `undefined` that the JS function
resolves to when the loop body never runs), how many times `fn` was invoked,
and the list of `setTimeout` waits (in milliseconds) that happened between
attempts. -/

structure RetryTrace (E T : Type) where
  result : Option (Except E T)
  calls : Nat
  sleeps : List Nat
  deriving Repr, DecidableEq

/-- The loop of `retry`, with `remaining = maxRetries - i` iterations left and
`i` the current attempt index.  `remaining = 1` is exactly the
`i === maxRetries - 1` case of the source, which rethrows instead of
sleeping. -/
def retryFrom {E T : Type} (fn : Nat → Except E T) : Nat → Nat → RetryTrace E T
  | 0, _ => ⟨none, 0, []⟩
  | remaining + 1, i =>
    match fn i with
    | .ok v => ⟨some (.ok v), 1, []⟩
    | .error e =>
      match remaining with
      | 0 => ⟨some (.error e), 1, []⟩
      | r + 1 =>
        let rest := retryFrom fn (r + 1) (i + 1)
        ⟨rest.result, rest.calls + 1, 1000 * 2 ^ i :: rest.sleeps⟩

/-- `retry(fn, maxRetries)`.  `maxRetries` is a JS number, modelled as `Int`
so that non-positive arguments (claim C10) are expressible; the `for` loop
runs `max maxRetries 0` times, i.e. `maxRetries.toNat` times. -/
def retry {E T : Type} (fn : Nat → Except E T) (maxRetries : Int) : RetryTrace E T :=
  retryFrom fn maxRetries.toNat 0

/-- An always-failing operation, attempt `i` rejecting with `errs i`. -/
def alwaysFail {E T : Type} (errs : Nat → E) : Nat → Except E T :=
  fun i => .error (errs i)

lemma retryFrom_alwaysFail {E T : Type} (errs : Nat → E) :
    ∀ (r i : Nat),
      retryFrom (E := E) (T := T) (alwaysFail errs) (r + 1) i =
        ⟨some (.error (errs (r + i))), r + 1,
          (List.range r).map fun j => 1000 * 2 ^ (j + i)⟩ := by
  intro r
  induction r with
  | zero =>
    intro i
    show RetryTrace.mk (some (.error (errs i))) 1 [] = _
    simp
  | succ n ih =>
    intro i
    have step : retryFrom (E := E) (T := T) (alwaysFail errs) (n + 1 + 1) i =
        ⟨(retryFrom (alwaysFail errs) (n + 1) (i + 1)).result,
          (retryFrom (alwaysFail errs) (n + 1) (i + 1)).calls + 1,
          1000 * 2 ^ i :: (retryFrom (alwaysFail errs) (n + 1) (i + 1)).sleeps⟩ := rfl
    rw [step, ih (i + 1)]
    have hsl : List.map (fun j => 1000 * 2 ^ (j + i)) (List.range (n + 1))
        = 1000 * 2 ^ i :: List.map (fun j => 1000 * 2 ^ (j + (i + 1))) (List.range n) := by
      rw [List.range_succ_eq_map, List.map_cons, List.map_map]
      simp only [Nat.zero_add]
      congr 1
      apply List.map_congr_left
      intro j _
      simp only [Function.comp_apply, Nat.succ_eq_add_one]
      rw [show j + 1 + i = j + (i + 1) by omega]
    rw [show n + 1 + i = n + (i + 1) by omega, hsl]

/-- C3: for an operation that always fails and any `maxRetries = n ≥ 1`,
`retry(fn, n)` invokes `fn` exactly `n` times, sleeps `1000 * 2^i`
milliseconds after the `i`-th failed attempt between consecutive attempts
(intervals 1s, 2s, 4s, ...; no sleep after the final attempt), and
propagates the last attempt's failure unchanged. -/
theorem retry_exhaustion {E T : Type} (errs : Nat → E) (n : Int) (h : 1 ≤ n) :
    retry (E := E) (T := T) (alwaysFail errs) n =
      ⟨some (.error (errs (n.toNat - 1))), n.toNat,
        (List.range (n.toNat - 1)).map fun i => 1000 * 2 ^ i⟩ := by
  rw [retry]
  obtain ⟨m, hm⟩ : ∃ m, n.toNat = m + 1 := ⟨n.toNat - 1, by omega⟩
  rw [hm, retryFrom_alwaysFail]
  simp [hm]

/-- Closed instance of `retry_exhaustion` at `n = 3`: three attempts,
sleeps of 1000ms and 2000ms, and the third attempt's error propagated. -/
theorem retry_exhaustion_witness :
    1 ≤ (3 : Int) ∧
      retry (E := String) (T := Nat) (alwaysFail fun i => toString i) 3 =
        ⟨some (.error "2"), 3, [1000, 2000]⟩ :=
  ⟨by decide, by rw [retry_exhaustion (fun i => toString i) 3 (by decide)]; rfl⟩

/-- C10: `retry(fn, maxRetries)` with a non-positive `maxRetries` never
invokes `fn`, performs no sleeps, and resolves to `undefined` (modelled as
`none`) rather than a value or an error — the `for` loop body is skipped and
the function falls off the end. -/
theorem retry_nonpositive {E T : Type} (fn : Nat → Except E T) (m : Int) (h : m ≤ 0) :
    retry fn m = ⟨none, 0, []⟩ := by
  rw [retry, show m.toNat = 0 by omega]
  rfl

/-- Closed instance of `retry_nonpositive` at `maxRetries = 0`: the
always-failing operation is never invoked and the call resolves to
`undefined` with no failure raised. -/
theorem retry_nonpositive_witness :
    (0 : Int) ≤ 0 ∧
      retry (E := String) (T := Nat) (alwaysFail fun i => toString i) 0 = ⟨none, 0, []⟩ :=
  ⟨le_refl 0, retry_nonpositive (alwaysFail fun i => toString i) 0 (le_refl 0)⟩

/-! ## Data model

Shapes from `queryService.ts`.  The curly brace characters used by the JSON
serialization are named once here. -/

/-- The left curly brace character. -/
def lbrace : Char := Char.ofNat 123

/-- The right curly brace character. -/
def rbrace : Char := Char.ofNat 125

/-- `QueryEmbeddingsOptions` (source lines 21-27).  `context?: any` is
modelled as an optional string payload.  An absent optional field is `none`,
matching `JSON.stringify` dropping absent keys.  Fields are serialized in
declaration order, standing for the caller's fixed insertion order.  `topK`
is a JS number used as a result count; it is modelled as `Nat`. -/
structure QueryEmbeddingsOptions where
  topK : Option Nat := none
  enableAPIQuery : Option Bool := none
  context : Option String := none
  language : Option String := none
  userId : Option String := none
  messageId : Option String := none
  deriving DecidableEq, Repr

/-- `QueryVectorStoreOptions` (source lines 17-19): the slice of the options
that `queryVectorStore` consumes. -/
structure QueryVectorStoreOptions where
  topK : Option Nat := none
  deriving DecidableEq, Repr

/-- The intent classification shape produced by `analyzeUserIntent`
(source lines 183-215). -/
structure Intent where
  isGreeting : Bool
  hasQuestion : Bool
  needsSupport : Bool
  topic : String
  deriving DecidableEq, Repr

/-- A normalized vector search hit: `queryMongoCollection` flattens each
document into `{metadata: {text, ...metadata}, score}` (source lines
109-115); the pipeline reads `metadata.text`, `metadata.language` and
`score`.  The score is a JS float used only for comparisons; it is modelled
as `Int`. -/
structure VSResult where
  text : String
  language : String
  score : Int
  deriving DecidableEq, Repr

/-- A weighted context entry `{text, language, score}` as fed to and
returned by `weightContextRelevance` (source lines 270-277). -/
structure CtxEntry where
  text : String
  language : String
  score : Int
  deriving DecidableEq, Repr

/-- An external-API result object; the source's mock produces
`[{ data: 'Mock API response' }]` (source line 180). -/
structure ApiResult where
  data : String
  deriving DecidableEq, Repr

/-- Payload of the external-API call: `{ query, contexts }`
(source line 281). -/
structure EnrichPayload where
  query : String
  contexts : List CtxEntry
  deriving DecidableEq, Repr

/-- `QueryEmbeddingsResponse` (source lines 29-38): the unit returned to the
caller and the unit cached.  (`matches` is a reserved word in Lean, hence
the primed field name.) -/
structure QueryResponse where
  matches' : List CtxEntry
  apiResults : List ApiResult
  answer : String
  deriving DecidableEq, Repr

/-! ## The cache key (source line 229)

`const cacheKey = ` query `:` `JSON.stringify(options)`.

`JSON.stringify` is modelled character-faithfully for the options record:
present fields are emitted in order as `"name":value`, separated by commas,
inside one pair of braces; string values are quoted with `"` and `\`
escaped by a backslash.  (Control-character escapes such as `\n` are
omitted from the model; they only substitute one injective encoding of a
character for another.)  Strings are handled as `List Char`; `String.data`
mediates. -/

/-- JSON string escaping of one character: `"` and `\` gain a leading
backslash, all other characters are emitted verbatim. -/
def escapeChar (c : Char) : List Char :=
  if c = '"' ∨ c = '\\' then ['\\', c] else [c]

/-- JSON string escaping of a character sequence. -/
def escapeChars : List Char → List Char
  | [] => []
  | c :: cs => escapeChar c ++ escapeChars cs

/-- A JSON string literal: `"` escaped-content `"`. -/
def jstr (s : String) : List Char := '"' :: (escapeChars s.data ++ ['"'])

/-- Decimal digit character for `d`; callers only use `d < 10`. -/
def digitChar : Nat → Char
  | 0 => '0' | 1 => '1' | 2 => '2' | 3 => '3' | 4 => '4'
  | 5 => '5' | 6 => '6' | 7 => '7' | 8 => '8' | _ => '9'

/-- Decimal digits of `n`, least significant first. -/
def natDigitsRev (n : Nat) : List Char :=
  if _h : n < 10 then [digitChar n]
  else digitChar (n % 10) :: natDigitsRev (n / 10)
  decreasing_by exact Nat.div_lt_self (by omega) (by omega)

/-- A JSON number literal (decimal notation, as `JSON.stringify` renders a
natural number). -/
def jnum (n : Nat) : List Char := (natDigitsRev n).reverse

/-- A JSON boolean literal. -/
def jbool (b : Bool) : List Char :=
  if b then ['t', 'r', 'u', 'e'] else ['f', 'a', 'l', 's', 'e']

/-- The value of one serialized options field. -/
inductive FieldVal
  | fnat (n : Nat)
  | fbool (b : Bool)
  | fstr (s : String)
  deriving DecidableEq, Repr

/-- Serialization of one field value. -/
def encodeVal : FieldVal → List Char
  | .fnat n => jnum n
  | .fbool b => jbool b
  | .fstr s => jstr s

/-- One serialized field `"name":value`.  The six option names contain no
character needing escaping, so the name is emitted verbatim between
quotes, exactly as `JSON.stringify` renders it. -/
def jfield (nm : List Char) (v : FieldVal) : List Char :=
  '"' :: (nm ++ '"' :: ':' :: encodeVal v)

def nameTopK : List Char := ['t', 'o', 'p', 'K']
def nameEnableAPIQuery : List Char :=
  ['e', 'n', 'a', 'b', 'l', 'e', 'A', 'P', 'I', 'Q', 'u', 'e', 'r', 'y']
def nameContext : List Char := ['c', 'o', 'n', 't', 'e', 'x', 't']
def nameLanguage : List Char := ['l', 'a', 'n', 'g', 'u', 'a', 'g', 'e']
def nameUserId : List Char := ['u', 's', 'e', 'r', 'I', 'd']
def nameMessageId : List Char := ['m', 'e', 's', 's', 'a', 'g', 'e', 'I', 'd']

/-- One optional field: present fields contribute one `name : value` pair,
absent fields nothing, as `JSON.stringify` drops absent keys. -/
def optField {α : Type} (nm : List Char) (mk : α → FieldVal) : Option α →
    List (List Char × FieldVal)
  | some a => [(nm, mk a)]
  | none => []

/-- The present fields of an options record, in declaration order. -/
def fieldSpecs (o : QueryEmbeddingsOptions) : List (List Char × FieldVal) :=
  optField nameTopK .fnat o.topK ++
  optField nameEnableAPIQuery .fbool o.enableAPIQuery ++
  optField nameContext .fstr o.context ++
  optField nameLanguage .fstr o.language ++
  optField nameUserId .fstr o.userId ++
  optField nameMessageId .fstr o.messageId

/-- Comma-separated join of serialized fields. -/
def joinComma : List (List Char) → List Char
  | [] => []
  | [f] => f
  | f :: fs => f ++ ',' :: joinComma fs

/-- `JSON.stringify(options)`. -/
def stringifyOptions (o : QueryEmbeddingsOptions) : List Char :=
  lbrace :: (joinComma ((fieldSpecs o).map fun f => jfield f.1 f.2) ++ [rbrace])

/-- The result cache key (source line 229):
`const cacheKey = ` query `:` `JSON.stringify(options)`. -/
def cacheKey (query : String) (o : QueryEmbeddingsOptions) : List Char :=
  query.data ++ ':' :: stringifyOptions o

/-! ### A right-to-left parser of cache keys

The serialized options form the key's suffix; the query is an arbitrary
prefix.  The parser below reads the reversed key, deterministically
recovering the options record and then the reversed query after the
separating colon.  Its roundtrip property yields both determinism and
injectivity of the cache key. -/

/-- Scans a reversed escaped string body up to the opening quote.  In a
reversed escaped body each escaped character appears as itself followed by
its backslash, so a quote not followed by a backslash is the opening
delimiter.  Returns the content characters in reversed order, and the rest
of the input after the opening quote. -/
def parseStrRev : List Char → Option (List Char × List Char)
  | [] => none
  | [c] => if c = '"' then some ([], []) else none
  | c :: c2 :: rest =>
    if c = '"' then
      if c2 = '\\' then (parseStrRev rest).map fun p => ('"' :: p.1, p.2)
      else some ([], c2 :: rest)
    else if c = '\\' then
      if c2 = '\\' then (parseStrRev rest).map fun p => ('\\' :: p.1, p.2)
      else none
    else (parseStrRev (c2 :: rest)).map fun p => (c :: p.1, p.2)

/-- Splits off the leading run of decimal digit characters. -/
def parseDigitsRev : List Char → List Char × List Char
  | [] => ([], [])
  | c :: rest =>
    if c.isDigit then
      let p := parseDigitsRev rest
      (c :: p.1, p.2)
    else ([], c :: rest)

/-- Numeric value of a digit character. -/
def charToDigit (c : Char) : Nat := c.toNat - 48

/-- Value of a least-significant-first digit list. -/
def digitsValLSD : List Char → Nat
  | [] => 0
  | c :: ds => charToDigit c + 10 * digitsValLSD ds

/-- Reads a reversed decimal number (digits arrive least significant
first). -/
def parseNumRev (l : List Char) : Option (Nat × List Char) :=
  let p := parseDigitsRev l
  if p.1 = [] then none else some (digitsValLSD p.1, p.2)

/-- Reads a reversed boolean literal. -/
def parseBoolRev : List Char → Option (Bool × List Char)
  | 'e' :: 'u' :: 'r' :: 't' :: rest => some (true, rest)
  | 'e' :: 's' :: 'l' :: 'a' :: 'f' :: rest => some (false, rest)
  | _ => none

/-- A parsed field value; string contents are kept in reversed order as
scanned. -/
inductive JVal
  | vnum (n : Nat)
  | vbool (b : Bool)
  | vstrRev (s : List Char)
  deriving DecidableEq, Repr

/-- The parsed form of a serialized field value. -/
def toJVal : FieldVal → JVal
  | .fnat n => .vnum n
  | .fbool b => .vbool b
  | .fstr s => .vstrRev s.data.reverse

/-- Reads one reversed field value, dispatching on the first character:
a quote opens a string, a digit a number, anything else a boolean. -/
def parseValRev : List Char → Option (JVal × List Char)
  | [] => none
  | c :: rest =>
    if c = '"' then (parseStrRev rest).map fun p => (.vstrRev p.1, p.2)
    else if c.isDigit then (parseNumRev (c :: rest)).map fun p => (.vnum p.1, p.2)
    else (parseBoolRev (c :: rest)).map fun p => (.vbool p.1, p.2)

/-- Reads one reversed field `value":"name"` and returns the name in
forward order with the parsed value. -/
def parseFieldRev (l : List Char) : Option ((List Char × JVal) × List Char) :=
  match parseValRev l with
  | none => none
  | some (v, rest) =>
    match rest with
    | ':' :: '"' :: rest2 =>
      match parseStrRev rest2 with
      | none => none
      | some (nameRev, rest3) => some ((nameRev.reverse, v), rest3)
    | _ => none

/-- Reads a reversed comma-separated field list terminated by the opening
brace.  The fuel bounds the number of fields; six suffices for any options
record. -/
def parseFieldsRev : Nat → List Char → Option (List (List Char × JVal) × List Char)
  | 0, _ => none
  | fuel + 1, l =>
    match parseFieldRev l with
    | none => none
    | some (f, rest) =>
      match rest with
      | [] => none
      | c :: rest2 =>
        if c = ',' then (parseFieldsRev fuel rest2).map fun p => (f :: p.1, p.2)
        else if c = lbrace then some ([f], rest2) else none

def takeNatField (nm : List Char) (fs : List (List Char × JVal)) :
    Option Nat × List (List Char × JVal) :=
  match fs with
  | (n, JVal.vnum k) :: rest => if n = nm then (some k, rest) else (none, fs)
  | _ => (none, fs)

def takeBoolField (nm : List Char) (fs : List (List Char × JVal)) :
    Option Bool × List (List Char × JVal) :=
  match fs with
  | (n, JVal.vbool b) :: rest => if n = nm then (some b, rest) else (none, fs)
  | _ => (none, fs)

def takeStrField (nm : List Char) (fs : List (List Char × JVal)) :
    Option String × List (List Char × JVal) :=
  match fs with
  | (n, JVal.vstrRev s) :: rest => if n = nm then (some (String.mk s.reverse), rest) else (none, fs)
  | _ => (none, fs)

/-- Rebuilds an options record from parsed fields in declaration order. -/
def assembleOptions (fs : List (List Char × JVal)) : Option QueryEmbeddingsOptions :=
  let p1 := takeNatField nameTopK fs
  let p2 := takeBoolField nameEnableAPIQuery p1.2
  let p3 := takeStrField nameContext p2.2
  let p4 := takeStrField nameLanguage p3.2
  let p5 := takeStrField nameUserId p4.2
  let p6 := takeStrField nameMessageId p5.2
  if p6.2 = [] then some ⟨p1.1, p2.1, p3.1, p4.1, p5.1, p6.1⟩ else none

/-- Reads a reversed serialized options object from the front of the input:
closing brace, the reversed fields, opening brace.  Returns the record and
the remaining input. -/
def parseOptionsRev (l : List Char) : Option (QueryEmbeddingsOptions × List Char) :=
  match l with
  | c :: rest =>
    if c = rbrace then
      match rest with
      | c2 :: rest2 =>
        if c2 = lbrace then some ({}, rest2)
        else
          match parseFieldsRev 6 rest with
          | some (fsRev, rest3) => (assembleOptions fsRev.reverse).map fun o => (o, rest3)
          | none => none
      | [] => none
    else none
  | [] => none

/-! ### Roundtrip of the reversed-key parser -/

/-- One character of a reversed escaped body: the character itself followed
by its backslash when escaped. -/
def escDown (c : Char) : List Char :=
  if c = '"' ∨ c = '\\' then [c, '\\'] else [c]

/-- A reversed escaped body, character by character. -/
def escDownChars : List Char → List Char
  | [] => []
  | c :: cs => escDown c ++ escDownChars cs

lemma escDownChars_append (a b : List Char) :
    escDownChars (a ++ b) = escDownChars a ++ escDownChars b := by
  induction a with
  | nil => rfl
  | cons c cs ih => simp [escDownChars, ih]

lemma escapeChar_reverse (c : Char) : (escapeChar c).reverse = escDown c := by
  by_cases h : c = '"' ∨ c = '\\' <;> simp [escapeChar, escDown, h]

lemma escapeChars_reverse (l : List Char) :
    (escapeChars l).reverse = escDownChars l.reverse := by
  induction l with
  | nil => rfl
  | cons c cs ih =>
    simp only [escapeChars, List.reverse_append, List.reverse_cons, ih,
      escDownChars_append, escapeChar_reverse]
    simp [escDownChars]

lemma parseStrRev_rt (L : List Char) :
    ∀ rest : List Char, rest.head? ≠ some '\\' →
      parseStrRev (escDownChars L ++ '"' :: rest) = some (L, rest) := by
  induction L with
  | nil =>
    intro rest h
    show parseStrRev ('"' :: rest) = some ([], rest)
    cases rest with
    | nil => rfl
    | cons c2 r2 =>
      have hc2 : c2 ≠ '\\' := fun hcc => h (by rw [hcc]; rfl)
      rw [parseStrRev, if_pos rfl, if_neg hc2]
  | cons c cs ih =>
    intro rest h
    by_cases hc : c = '"' ∨ c = '\\'
    · have hstep : escDownChars (c :: cs) ++ '"' :: rest
          = c :: '\\' :: (escDownChars cs ++ '"' :: rest) := by
        simp [escDownChars, escDown, hc]
      rw [hstep]
      rcases hc with hc | hc
      · subst hc
        rw [parseStrRev, if_pos rfl, if_pos rfl, ih rest h]; rfl
      · subst hc
        rw [parseStrRev, if_neg (by decide), if_pos rfl, ih rest h]; rfl
    · push_neg at hc
      have hstep : escDownChars (c :: cs) ++ '"' :: rest
          = c :: (escDownChars cs ++ '"' :: rest) := by
        simp [escDownChars, escDown, hc.1, hc.2]
      obtain ⟨c2, t, hX⟩ : ∃ c2 t, escDownChars cs ++ '"' :: rest = c2 :: t := by
        cases hcs : escDownChars cs with
        | nil => exact ⟨'"', rest, by simp⟩
        | cons a b => exact ⟨a, b ++ '"' :: rest, by simp⟩
      rw [hstep, hX, parseStrRev, if_neg hc.1, if_neg hc.2, ← hX, ih rest h]
      rfl

lemma digitChar_isDigit (d : Nat) (h : d < 10) : (digitChar d).isDigit = true := by
  interval_cases d <;> decide

lemma charToDigit_digitChar (d : Nat) (h : d < 10) : charToDigit (digitChar d) = d := by
  interval_cases d <;> decide

lemma natDigitsRev_ne_nil (n : Nat) : natDigitsRev n ≠ [] := by
  rw [natDigitsRev]
  split <;> simp

lemma natDigitsRev_digits (n : Nat) : ∀ c ∈ natDigitsRev n, c.isDigit = true := by
  induction n using Nat.strong_induction_on with
  | _ n ih =>
    rw [natDigitsRev]
    split
    · rename_i h
      intro c hc
      simp only [List.mem_singleton] at hc
      rw [hc]; exact digitChar_isDigit n h
    · rename_i h
      intro c hc
      simp only [List.mem_cons] at hc
      rcases hc with hc | hc
      · rw [hc]; exact digitChar_isDigit _ (Nat.mod_lt n (by omega))
      · exact ih (n / 10) (Nat.div_lt_self (by omega) (by omega)) c hc

lemma digitsValLSD_natDigitsRev (n : Nat) : digitsValLSD (natDigitsRev n) = n := by
  induction n using Nat.strong_induction_on with
  | _ n ih =>
    rw [natDigitsRev]
    split
    · rename_i h
      simp [digitsValLSD, charToDigit_digitChar n h]
    · rename_i h
      rw [digitsValLSD, ih (n / 10) (Nat.div_lt_self (by omega) (by omega)),
        charToDigit_digitChar _ (Nat.mod_lt n (by omega))]
      omega

/-- Head condition for number parsing: the remaining input does not start
with a digit. -/
def headNotDigit : List Char → Prop
  | [] => True
  | c :: _ => c.isDigit = false

lemma parseDigitsRev_rt (ds : List Char) (hds : ∀ c ∈ ds, c.isDigit = true) :
    ∀ rest : List Char, headNotDigit rest → parseDigitsRev (ds ++ rest) = (ds, rest) := by
  induction ds with
  | nil =>
    intro rest h
    match rest, h with
    | [], _ => rfl
    | c :: r, h =>
      show parseDigitsRev (c :: r) = ([], c :: r)
      rw [parseDigitsRev]
      rw [if_neg (by simp [headNotDigit] at h; simp [h])]
  | cons c cs ih =>
    intro rest h
    show parseDigitsRev (c :: (cs ++ rest)) = (c :: cs, rest)
    rw [parseDigitsRev, if_pos (hds c (by simp))]
    rw [ih (fun d hd => hds d (by simp [hd])) rest h]

lemma parseNumRev_rt (n : Nat) (rest : List Char) (h : headNotDigit rest) :
    parseNumRev (natDigitsRev n ++ rest) = some (n, rest) := by
  rw [parseNumRev]
  rw [parseDigitsRev_rt (natDigitsRev n) (natDigitsRev_digits n) rest h]
  simp only [if_neg (natDigitsRev_ne_nil n)]
  rw [digitsValLSD_natDigitsRev]

lemma jstr_reverse (s : String) :
    (jstr s).reverse = '"' :: (escDownChars s.data.reverse ++ ['"']) := by
  simp [jstr, escapeChars_reverse]

lemma head_cons_ne_backslash (c : Char) (hc : c ≠ '\\') (l : List Char) :
    (c :: l).head? ≠ some '\\' := by
  rw [List.head?_cons]
  intro h
  exact hc (Option.some.inj h)

lemma headNotDigit_cons (c : Char) (h : c.isDigit = false) (l : List Char) :
    headNotDigit (c :: l) := h

lemma parseValRev_rt (v : FieldVal) (r : List Char) :
    parseValRev ((encodeVal v).reverse ++ ':' :: r) = some (toJVal v, ':' :: r) := by
  cases v with
  | fstr s =>
    rw [show encodeVal (.fstr s) = jstr s from rfl, jstr_reverse]
    have h2 : ('"' :: (escDownChars s.data.reverse ++ ['"'])) ++ ':' :: r
        = '"' :: (escDownChars s.data.reverse ++ '"' :: ':' :: r) := by simp
    rw [h2, parseValRev, if_pos rfl,
      parseStrRev_rt _ _ (head_cons_ne_backslash ':' (by decide) r)]
    rfl
  | fnat n =>
    have h1 : (encodeVal (.fnat n)).reverse = natDigitsRev n := by simp [encodeVal, jnum]
    rw [h1]
    obtain ⟨c, t, hct⟩ : ∃ c t, natDigitsRev n = c :: t := by
      cases hnd : natDigitsRev n with
      | nil => exact absurd hnd (natDigitsRev_ne_nil n)
      | cons a b => exact ⟨a, b, rfl⟩
    have hcd : c.isDigit = true := natDigitsRev_digits n c (by rw [hct]; simp)
    have hcq : c ≠ '"' := by intro hq; rw [hq] at hcd; exact absurd hcd (by decide)
    rw [hct, List.cons_append, parseValRev, if_neg hcq, if_pos hcd,
      ← List.cons_append, ← hct, parseNumRev_rt n (':' :: r) (headNotDigit_cons ':' (by decide) r)]
    rfl
  | fbool b =>
    cases b with
    | false =>
      show parseValRev ('e' :: 's' :: 'l' :: 'a' :: 'f' :: ':' :: r)
          = some (toJVal (.fbool false), ':' :: r)
      rw [parseValRev, if_neg (by decide), if_neg (by decide)]
      rfl
    | true =>
      show parseValRev ('e' :: 'u' :: 'r' :: 't' :: ':' :: r)
          = some (toJVal (.fbool true), ':' :: r)
      rw [parseValRev, if_neg (by decide), if_neg (by decide)]
      rfl

lemma jfield_reverse (nm : List Char) (v : FieldVal) :
    (jfield nm v).reverse
      = (encodeVal v).reverse ++ ':' :: '"' :: (nm.reverse ++ '"' :: []) := by
  simp [jfield]

lemma parseFieldRev_rt (nm : List Char) (hnm : escDownChars nm.reverse = nm.reverse)
    (v : FieldVal) (R : List Char) (hR : R.head? ≠ some '\\') :
    parseFieldRev ((jfield nm v).reverse ++ R) = some ((nm, toJVal v), R) := by
  have h1 : (jfield nm v).reverse ++ R
      = (encodeVal v).reverse ++ ':' :: ('"' :: (nm.reverse ++ '"' :: R)) := by
    rw [jfield_reverse]; simp
  rw [h1, parseFieldRev, parseValRev_rt]
  show (match parseStrRev (nm.reverse ++ '"' :: R) with
        | none => none
        | some (nameRev, rest3) => some ((nameRev.reverse, toJVal v), rest3))
      = some ((nm, toJVal v), R)
  rw [show nm.reverse ++ '"' :: R = escDownChars nm.reverse ++ '"' :: R from by rw [hnm],
    parseStrRev_rt _ _ hR]
  simp

/-- The serialized body of a field list (without the surrounding braces). -/
def bodyChars (fs : List (List Char × FieldVal)) : List Char :=
  joinComma (fs.map fun f => jfield f.1 f.2)

lemma joinComma_append_singleton (xs : List (List Char)) (x : List Char) (h : xs ≠ []) :
    joinComma (xs ++ [x]) = joinComma xs ++ ',' :: x := by
  induction xs with
  | nil => exact absurd rfl h
  | cons a as ih =>
    cases as with
    | nil => rfl
    | cons b bs =>
      show a ++ ',' :: joinComma ((b :: bs) ++ [x]) = (a ++ ',' :: joinComma (b :: bs)) ++ ',' :: x
      rw [ih (by simp)]
      simp

lemma parseFieldsRev_rt :
    ∀ fs : List (List Char × FieldVal),
      (∀ f ∈ fs, escDownChars f.1.reverse = f.1.reverse) →
      ∀ fuel : Nat, fs.length ≤ fuel → fs ≠ [] → ∀ R : List Char,
        parseFieldsRev fuel ((bodyChars fs).reverse ++ lbrace :: R)
          = some ((fs.map fun f => (f.1, toJVal f.2)).reverse, R) := by
  intro fs
  induction fs using List.reverseRecOn with
  | nil => intro _ fuel _ h; exact absurd rfl h
  | append_singleton fs f ih =>
    intro hplain fuel hfuel _ R
    obtain ⟨fuel', rfl⟩ : ∃ fuel', fuel = fuel' + 1 := by
      refine ⟨fuel - 1, ?_⟩
      simp only [List.length_append, List.length_singleton] at hfuel
      omega
    by_cases hfs : fs = []
    · subst hfs
      have hb : (bodyChars ([] ++ [f])).reverse ++ lbrace :: R
          = (jfield f.1 f.2).reverse ++ lbrace :: R := rfl
      rw [hb, parseFieldsRev,
        parseFieldRev_rt f.1 (hplain f (by simp)) f.2 (lbrace :: R)
          (head_cons_ne_backslash lbrace (by decide) R)]
      show (if lbrace = ',' then _ else if lbrace = lbrace then _ else none) = _
      rw [if_neg (by decide), if_pos rfl]
      simp
    · have hbody : bodyChars (fs ++ [f]) = bodyChars fs ++ ',' :: jfield f.1 f.2 := by
        unfold bodyChars
        rw [List.map_append]
        exact joinComma_append_singleton _ _ (by simp [hfs])
      have hrev : (bodyChars (fs ++ [f])).reverse ++ lbrace :: R
          = (jfield f.1 f.2).reverse ++ ',' :: ((bodyChars fs).reverse ++ lbrace :: R) := by
        rw [hbody]; simp
      rw [hrev, parseFieldsRev,
        parseFieldRev_rt f.1 (hplain f (by simp)) f.2 _
          (head_cons_ne_backslash ',' (by decide) _)]
      show (if (',' : Char) = ',' then
              (parseFieldsRev fuel' ((bodyChars fs).reverse ++ lbrace :: R)).map
                fun p => ((f.1, toJVal f.2) :: p.1, p.2)
            else _) = _
      rw [if_pos rfl,
        ih (fun g hg => hplain g (by simp [hg])) fuel'
          (by simp only [List.length_append, List.length_singleton] at hfuel; omega) hfs R]
      simp

lemma encodeVal_reverse_head (v : FieldVal) :
    ∃ c t, (encodeVal v).reverse = c :: t ∧ c ≠ lbrace := by
  cases v with
  | fnat n =>
    obtain ⟨c, t, hct⟩ : ∃ c t, natDigitsRev n = c :: t := by
      cases hnd : natDigitsRev n with
      | nil => exact absurd hnd (natDigitsRev_ne_nil n)
      | cons a b => exact ⟨a, b, rfl⟩
    refine ⟨c, t, by simp [encodeVal, jnum, hct], ?_⟩
    have hcd : c.isDigit = true := natDigitsRev_digits n c (by rw [hct]; simp)
    intro h
    rw [h] at hcd
    exact absurd hcd (by decide)
  | fbool b =>
    cases b with
    | false => exact ⟨'e', ['s', 'l', 'a', 'f'], rfl, by decide⟩
    | true => exact ⟨'e', ['u', 'r', 't'], rfl, by decide⟩
  | fstr s =>
    exact ⟨'"', escDownChars s.data.reverse ++ ['"'],
      by rw [show encodeVal (.fstr s) = jstr s from rfl, jstr_reverse], by decide⟩

lemma jfield_reverse_head (nm : List Char) (v : FieldVal) :
    ∃ c t, (jfield nm v).reverse = c :: t ∧ c ≠ lbrace := by
  obtain ⟨c, t, h1, h2⟩ := encodeVal_reverse_head v
  exact ⟨c, t ++ ':' :: '"' :: (nm.reverse ++ '"' :: []),
    by rw [jfield_reverse, h1]; simp, h2⟩

lemma bodyChars_reverse_head (fs : List (List Char × FieldVal)) (h : fs ≠ []) :
    ∃ c t, (bodyChars fs).reverse = c :: t ∧ c ≠ lbrace := by
  induction fs using List.reverseRecOn with
  | nil => exact absurd rfl h
  | append_singleton fs f ih =>
    by_cases hfs : fs = []
    · subst hfs
      obtain ⟨c, t, h1, h2⟩ := jfield_reverse_head f.1 f.2
      exact ⟨c, t, by rw [show bodyChars ([] ++ [f]) = jfield f.1 f.2 from rfl, h1], h2⟩
    · have hbody : bodyChars (fs ++ [f]) = bodyChars fs ++ ',' :: jfield f.1 f.2 := by
        unfold bodyChars
        rw [List.map_append]
        exact joinComma_append_singleton _ _ (by simp [hfs])
      obtain ⟨c, t, h1, h2⟩ := jfield_reverse_head f.1 f.2
      exact ⟨c, t ++ ',' :: (bodyChars fs).reverse, by rw [hbody]; simp [h1], h2⟩

lemma mem_optField {α : Type} {nm : List Char} {mk : α → FieldVal} {x : Option α}
    {f : List Char × FieldVal} (h : f ∈ optField nm mk x) :
    ∃ a, x = some a ∧ f = (nm, mk a) := by
  cases x with
  | none => simp [optField] at h
  | some a =>
    simp [optField] at h
    exact ⟨a, rfl, h⟩

lemma plain_nameTopK : escDownChars nameTopK.reverse = nameTopK.reverse := by decide
lemma plain_nameEnableAPIQuery :
    escDownChars nameEnableAPIQuery.reverse = nameEnableAPIQuery.reverse := by decide
lemma plain_nameContext : escDownChars nameContext.reverse = nameContext.reverse := by decide
lemma plain_nameLanguage : escDownChars nameLanguage.reverse = nameLanguage.reverse := by decide
lemma plain_nameUserId : escDownChars nameUserId.reverse = nameUserId.reverse := by decide
lemma plain_nameMessageId : escDownChars nameMessageId.reverse = nameMessageId.reverse := by decide

lemma fieldSpecs_plain (o : QueryEmbeddingsOptions) :
    ∀ f ∈ fieldSpecs o, escDownChars f.1.reverse = f.1.reverse := by
  intro f hf
  simp only [fieldSpecs, List.mem_append] at hf
  rcases hf with ((((h | h) | h) | h) | h) | h
  · obtain ⟨a, -, hfa⟩ := mem_optField h
    rw [hfa]
    exact plain_nameTopK
  · obtain ⟨a, -, hfa⟩ := mem_optField h
    rw [hfa]
    exact plain_nameEnableAPIQuery
  · obtain ⟨a, -, hfa⟩ := mem_optField h
    rw [hfa]
    exact plain_nameContext
  · obtain ⟨a, -, hfa⟩ := mem_optField h
    rw [hfa]
    exact plain_nameLanguage
  · obtain ⟨a, -, hfa⟩ := mem_optField h
    rw [hfa]
    exact plain_nameUserId
  · obtain ⟨a, -, hfa⟩ := mem_optField h
    rw [hfa]
    exact plain_nameMessageId

lemma optField_length_le {α : Type} (nm : List Char) (mk : α → FieldVal) (x : Option α) :
    (optField nm mk x).length ≤ 1 := by
  cases x <;> simp [optField]

lemma fieldSpecs_length_le (o : QueryEmbeddingsOptions) : (fieldSpecs o).length ≤ 6 := by
  have h1 := optField_length_le nameTopK FieldVal.fnat o.topK
  have h2 := optField_length_le nameEnableAPIQuery FieldVal.fbool o.enableAPIQuery
  have h3 := optField_length_le nameContext FieldVal.fstr o.context
  have h4 := optField_length_le nameLanguage FieldVal.fstr o.language
  have h5 := optField_length_le nameUserId FieldVal.fstr o.userId
  have h6 := optField_length_le nameMessageId FieldVal.fstr o.messageId
  simp only [fieldSpecs, List.length_append]
  omega

lemma optField_eq_nil {α : Type} {nm : List Char} {mk : α → FieldVal} {x : Option α}
    (h : optField nm mk x = []) : x = none := by
  cases x with
  | none => rfl
  | some a => simp [optField] at h

lemma fieldSpecs_eq_nil (o : QueryEmbeddingsOptions) (h : fieldSpecs o = []) : o = {} := by
  rcases o with ⟨t, e, c, l, u, m⟩
  cases t <;> cases e <;> cases c <;> cases l <;> cases u <;> cases m <;>
    first
      | rfl
      | (exfalso; simp [fieldSpecs, optField] at h)

lemma stringMk_data (s : String) : String.mk s.data = s := rfl

lemma assembleOptions_rt (o : QueryEmbeddingsOptions) :
    assembleOptions ((fieldSpecs o).map fun f => (f.1, toJVal f.2)) = some o := by
  have d1 : nameLanguage ≠ nameContext := by decide
  have d2 : nameUserId ≠ nameContext := by decide
  have d3 : nameMessageId ≠ nameContext := by decide
  have d4 : nameUserId ≠ nameLanguage := by decide
  have d5 : nameMessageId ≠ nameLanguage := by decide
  have d6 : nameMessageId ≠ nameUserId := by decide
  rcases o with ⟨t, e, c, l, u, m⟩
  cases t <;> cases e <;> cases c <;> cases l <;> cases u <;> cases m <;>
    simp [assembleOptions, fieldSpecs, optField, toJVal, takeNatField, takeBoolField,
      takeStrField, stringMk_data, d1, d2, d3, d4, d5, d6]

lemma parseOptionsRev_rt (o : QueryEmbeddingsOptions) (R : List Char) :
    parseOptionsRev ((stringifyOptions o).reverse ++ R) = some (o, R) := by
  have hstr : (stringifyOptions o).reverse ++ R
      = rbrace :: ((bodyChars (fieldSpecs o)).reverse ++ lbrace :: R) := by
    simp [stringifyOptions, bodyChars]
  by_cases h0 : fieldSpecs o = []
  · have hb : (bodyChars (fieldSpecs o)).reverse ++ lbrace :: R = lbrace :: R := by
      rw [h0]; rfl
    rw [hstr, hb, parseOptionsRev, if_pos rfl]
    show (if lbrace = lbrace then some (({} : QueryEmbeddingsOptions), R) else _) = some (o, R)
    rw [if_pos rfl, fieldSpecs_eq_nil o h0]
  · obtain ⟨c, t, hct, hcl⟩ := bodyChars_reverse_head (fieldSpecs o) h0
    have hfields : parseFieldsRev 6 ((bodyChars (fieldSpecs o)).reverse ++ lbrace :: R)
        = some (((fieldSpecs o).map fun f => (f.1, toJVal f.2)).reverse, R) :=
      parseFieldsRev_rt (fieldSpecs o) (fieldSpecs_plain o) 6 (fieldSpecs_length_le o) h0 R
    have hshape : (bodyChars (fieldSpecs o)).reverse ++ lbrace :: R = c :: (t ++ lbrace :: R) := by
      rw [hct]; rfl
    rw [hstr, hshape, parseOptionsRev, if_pos rfl]
    show (if c = lbrace then some (({} : QueryEmbeddingsOptions), t ++ lbrace :: R)
          else match parseFieldsRev 6 (c :: (t ++ lbrace :: R)) with
               | some (fsRev, rest3) => (assembleOptions fsRev.reverse).map fun o => (o, rest3)
               | none => none)
        = some (o, R)
    rw [if_neg hcl, ← hshape, hfields]
    show (assembleOptions ((fieldSpecs o).map fun f => (f.1, toJVal f.2)).reverse.reverse).map
        (fun o => (o, R)) = some (o, R)
    rw [List.reverse_reverse, assembleOptions_rt]
    rfl

/-- C6: the cache key `query + ":" + JSON.stringify(options)` is a
deterministic function of the query text and the options payload (it is a
function), and it is injective: equal keys force equal queries and equal
options records.  In particular distinct option sets for the same query
never produce the same key. -/
theorem cacheKey_injective (q₁ q₂ : String) (o₁ o₂ : QueryEmbeddingsOptions)
    (h : cacheKey q₁ o₁ = cacheKey q₂ o₂) : q₁ = q₂ ∧ o₁ = o₂ := by
  have hform : ∀ (q : String) (o : QueryEmbeddingsOptions),
      (cacheKey q o).reverse = (stringifyOptions o).reverse ++ ':' :: q.data.reverse := by
    intro q o
    simp [cacheKey]
  have hrev : (stringifyOptions o₁).reverse ++ ':' :: q₁.data.reverse
      = (stringifyOptions o₂).reverse ++ ':' :: q₂.data.reverse := by
    rw [← hform, ← hform, h]
  have p₁ := parseOptionsRev_rt o₁ (':' :: q₁.data.reverse)
  have p₂ := parseOptionsRev_rt o₂ (':' :: q₂.data.reverse)
  rw [hrev, p₂] at p₁
  have hpair := Option.some.inj p₁
  have ho : o₂ = o₁ := congrArg Prod.fst hpair
  have hq : (':' :: q₂.data.reverse) = ':' :: q₁.data.reverse := congrArg Prod.snd hpair
  have hqd : q₁.data = q₂.data := by
    have h2 : q₂.data.reverse = q₁.data.reverse := (List.cons.inj hq).2
    have h3 := congrArg List.reverse h2
    simpa using h3.symm
  exact ⟨congrArg String.mk hqd, ho.symm⟩

/-- Closed instance of `cacheKey_injective`: equal inputs trivially have
equal keys, and the theorem recovers equality of the components. -/
theorem cacheKey_injective_witness :
    "hello" = "hello" ∧
      ({ topK := some 5 } : QueryEmbeddingsOptions) = { topK := some 5 } :=
  cacheKey_injective "hello" "hello" { topK := some 5 } { topK := some 5 } rfl

/-! ## The vector store adapter (source lines 75-171) -/

/-- `x || 5` on the `topK` option: JS `||` takes the default when `topK` is
`undefined` or `0` (zero is falsy). -/
def orDefault5 : Option Nat → Nat
  | none => 5
  | some k => if k = 0 then 5 else k

/-- Stable insertion of one hit into a list sorted by descending score:
the JS comparator is `(a, b) => b.score - a.score` and `Array.sort` is
stable, so an inserted earlier element precedes later elements of equal
score. -/
def insertDesc (x : VSResult) : List VSResult → List VSResult
  | [] => [x]
  | y :: ys => if x.score ≥ y.score then x :: y :: ys else y :: insertDesc x ys

/-- `allResults.sort((a, b) => b.score - a.score)` (source line 160). -/
def sortByScoreDesc : List VSResult → List VSResult
  | [] => []
  | x :: xs => insertDesc x (sortByScoreDesc xs)

/-- Source lines 157-166:

```ts
const allResults = [...docsResults].filter((_, index) => index <= topK);
const topResults = allResults.sort((a, b) => b.score - a.score).slice(0, topK);
```

The filter is index-based and happens before the sort: it keeps the
candidates at positions `0 .. topK` (that is, the first `topK + 1` of them in
arrival order), then sorts by descending score, then slices the first
`topK`. -/
def mongoTopK (docsResults : List VSResult) (topK : Nat) : List VSResult :=
  let allResults := (docsResults.enum.filter fun p => p.1 ≤ topK).map fun p => p.2
  let topResults := (sortByScoreDesc allResults).take topK
  topResults

/-! ## Oracles, state and observable effects

External collaborators are deterministic oracle functions; `Except.error`
models a rejected promise. -/

/-- The collaborators consumed by the pipeline.
`weightContextRelevance` and `formatContexts` are imported from
`utils/conversation.ts`, and `summarizeChatHistory` from
`summaryService.ts`; those files are not among the sources.  Modelled from
the spec: the weigher is a pure reordering/filtering of raw matches against
the query (§4.4), formatting is a pure textual rendering, and summarization
is a fallible read-side transform (§4.5).  `queryExternalAPI` is the
enrichment collaborator's calling contract (§6, fallible); the repository's
own `queryExternalAPI` placeholder is the never-failing `mockExternalAPI`
below. -/
structure Oracles where
  systemPrompt : String
  embedQuery : String → Except String (List Int)
  classify : String → Except String Intent
  chatCompletion : String → String → Except String String
  mongoKnnSearch : List Int → Nat → Except String (List VSResult)
  pineconeQuery : List Int → Nat → Except String (List VSResult)
  queryExternalAPI : String → EnrichPayload → Except String (List ApiResult)
  summarizeChatHistory : List (String × String) → Except String String
  weightContextRelevance : String → List CtxEntry → List CtxEntry
  formatContexts : List CtxEntry → String

/-- Source lines 177-181: the repository's `queryExternalAPI` placeholder
logs and returns `[{ data: 'Mock API response' }]`; it never rejects. -/
def mockExternalAPI (_apiName : String) (_payload : EnrichPayload) :
    Except String (List ApiResult) :=
  .ok [⟨"Mock API response"⟩]

/-- `analyzeUserIntent` (source lines 183-215): one structured-output
completion call whose parsed result is the intent; call and parse failures
are the oracle's `.error`. -/
def analyzeUserIntent (o : Oracles) (query : String) : Except String Intent :=
  o.classify query

/-- The mutable module-level state: the result cache (`cache`), the message
dedup cache (`messageCache`), and the conversation memory
(`ConversationManager`, modelled from the spec §4.5 as a per-user history
map; the total lookup returns an empty history for unknown users, which
makes `getMemory`'s lazy creation a no-op).  An entry being present stands
for an unexpired entry; TTL and capacity eviction belong to `NodeCache` and
are abstracted away. -/
structure SysState where
  cache : List (List Char × QueryResponse)
  messageCache : List String
  memory : List (Option String × List (String × String))
  deriving DecidableEq, Repr

/-- `cache.get(key)`; the newest entry for a key shadows older ones. -/
def lookupCache : List (List Char × QueryResponse) → List Char → Option QueryResponse
  | [], _ => none
  | (k, v) :: rest, key => if k = key then some v else lookupCache rest key

/-- Memory read: `getMemory(userId)` followed by `loadMemoryVariables({})`,
modelled from the spec §4.5. -/
def memLookup : List (Option String × List (String × String)) → Option String →
    List (String × String)
  | [], _ => []
  | (k, v) :: rest, u => if k = u then v else memLookup rest u

/-- Memory write: `saveContext({input}, {output})` appends one turn to
the user's history, modelled from the spec §4.5. -/
def memSave (mem : List (Option String × List (String × String))) (u : Option String)
    (q a : String) : List (Option String × List (String × String)) :=
  (u, memLookup mem u ++ [(q, a)]) :: mem

/-- The observable collaborator invocations of one turn. -/
inductive Effect
  | embedE
  | classifyE
  | completionE
  | vectorE
  | enrichE
  | memLoadE
  | memSaveE
  | summarizeE
  deriving DecidableEq, Repr

/-- Source lines 222-225: `if (messageId && messageCache.get(messageId))`.
The JS truthiness test makes an empty-string `messageId` never suppress. -/
def isSuppressed (options : QueryEmbeddingsOptions) (st : SysState) : Bool :=
  match options.messageId with
  | some m => (m != "") && st.messageCache.contains m
  | none => false

/-- Source lines 327-329: `if (messageId) { messageCache.set(messageId, true) }`. -/
def markSeen (options : QueryEmbeddingsOptions) (st : SysState) : SysState :=
  match options.messageId with
  | some m => if m ≠ "" then { st with messageCache := m :: st.messageCache } else st
  | none => st

/-- `queryVectorStore` (source lines 118-171): pinecone is retried, mongodb
queries the `docs` collection (the demo collection is commented out) and
post-processes with `mongoTopK`; any other store name fails with the
`not implemented` error. -/
def queryVectorStore (o : Oracles) (storeName : String) (queryVector : List Int)
    (options : QueryVectorStoreOptions) : Except String (List VSResult) :=
  if storeName = "pinecone" then
    match (retry (fun _ => o.pineconeQuery queryVector (orDefault5 options.topK)) 3).result with
    | some r => r
    | none => .error "retry resolved to undefined"
  else if storeName = "mongodb" then
    match o.mongoKnnSearch queryVector (orDefault5 options.topK) with
    | .error e => .error e
    | .ok docsResults => .ok (mongoTopK docsResults (orDefault5 options.topK))
  else .error ("Vector store \"" ++ storeName ++ "\" is not implemented.")

/-- `true`/`false` as rendered by `JSON.stringify`. -/
def boolStr (b : Bool) : String := if b then "true" else "false"

def braceL : String := String.mk [lbrace]
def braceR : String := String.mk [rbrace]

/-- `JSON.stringify(intent)` as interpolated into the prompt
(source line 290). -/
def stringifyIntent (i : Intent) : String :=
  braceL ++ "\"isGreeting\":" ++ boolStr i.isGreeting ++
    ",\"hasQuestion\":" ++ boolStr i.hasQuestion ++
    ",\"needsSupport\":" ++ boolStr i.needsSupport ++
    ",\"topic\":" ++ String.mk (jstr i.topic) ++ braceR

/-- The greeting-branch user message (source line 248). -/
def greetingUserContent (query : String) : String :=
  "Query: \"" ++ query ++
    "\"\nType: Greeting\n\nRespond in a friendly and natural way, without assuming any supporting context"

/-- The retrieval-branch prompt content (source lines 288-297). -/
def chatbotContent (query : String) (intent : Intent) (historySummary : String)
    (formattedContexts : String) : String :=
  String.intercalate "\n"
    ["Query: \"" ++ query ++ "\"",
      "Intent: " ++ stringifyIntent intent,
      "",
      "Conversation Summary:",
      historySummary,
      "",
      "Relevant contexts:",
      formattedContexts]

/-- The greeting short-circuit condition (source line 240):
`intent.isGreeting && !intent.hasQuestion && !intent.needsSupport`. -/
def greetingOnly (i : Intent) : Bool :=
  i.isGreeting && !i.hasQuestion && !i.needsSupport

/-- The observable outcome of one `queryEmbeddings` turn: the returned value
(`.ok none` is the `null` dedup sentinel, `.error` a rejected promise), the
state after the turn, and the collaborator invocations performed. -/
structure TurnResult where
  res : Except String (Option QueryResponse)
  state : SysState
  log : List Effect
  deriving DecidableEq, Repr

/-! The body of `queryEmbeddings` (source lines 217-333) is embedded as a
chain of stage functions, one per suspension point, each taking the state
and the effect log accumulated so far.  Together, applied in order, they
are the function body; the split mirrors the source's sequential `await`s
and makes each stage's contribution to state and log explicit. -/

/-- Memory save, dedup mark and cache store on the success terminal
(source lines 318-332): `memory.saveContext`, then
`if (messageId) messageCache.set(messageId, true)`, then
`cache.set(cacheKey, result)`. -/
def generateStage (o : Oracles) (query : String) (options : QueryEmbeddingsOptions)
    (st : SysState) (key : List Char) (intent : Intent) (contexts : List CtxEntry)
    (apiResults : List ApiResult) (log : List Effect) : TurnResult :=
  let chatHistory := memLookup st.memory options.userId
  let log5 := log ++ [Effect.memLoadE, Effect.summarizeE]
  match o.summarizeChatHistory chatHistory with
  | .error e => ⟨.error e, st, log5⟩
  | .ok historySummary =>
    let content := chatbotContent query intent historySummary (o.formatContexts contexts)
    let genTrace := retry (fun _ => o.chatCompletion o.systemPrompt content) 3
    let log6 := log5 ++ List.replicate genTrace.calls Effect.completionE
    match genTrace.result with
    | none => ⟨.error "retry resolved to undefined", st, log6⟩
    | some (.error e) => ⟨.error e, st, log6⟩
    | some (.ok answer) =>
      let st1 := { st with memory := memSave st.memory options.userId query answer }
      let result : QueryResponse := ⟨contexts, apiResults, answer⟩
      let st2 := markSeen options st1
      let st3 := { st2 with cache := (key, result) :: st2.cache }
      ⟨.ok (some result), st3, log6 ++ [Effect.memSaveE]⟩

/-- The retrieval branch (source lines 263-297): mongodb vector search,
context weighting, optional enrichment — awaited directly, with no
`try`/`catch` around it — then memory load, summarization and generation. -/
def retrievalStage (o : Oracles) (query : String) (options : QueryEmbeddingsOptions)
    (st : SysState) (key : List Char) (queryVector : List Int) (intent : Intent)
    (log : List Effect) : TurnResult :=
  match queryVectorStore o "mongodb" queryVector ⟨options.topK⟩ with
  | .error e => ⟨.error e, st, log ++ [Effect.vectorE]⟩
  | .ok vsMatches =>
    let log3 := log ++ [Effect.vectorE]
    let contexts := o.weightContextRelevance query
      (vsMatches.map fun m => ⟨m.text, m.language, m.score⟩)
    let enrichResult :=
      if options.enableAPIQuery = some true then
        o.queryExternalAPI "mockAPI" ⟨query, contexts⟩
      else .ok []
    let log4 := log3 ++ (if options.enableAPIQuery = some true then [Effect.enrichE] else [])
    match enrichResult with
    | .error e => ⟨.error e, st, log4⟩
    | .ok apiResults => generateStage o query options st key intent contexts apiResults log4

/-- The greeting branch (source lines 240-261): one friendly completion,
returned directly — with no retrieval, no memory access, and no cache or
dedup write. -/
def greetingStage (o : Oracles) (query : String) (st : SysState) (log : List Effect) :
    TurnResult :=
  let greetTrace := retry (fun _ => o.chatCompletion o.systemPrompt (greetingUserContent query)) 3
  let log3 := log ++ List.replicate greetTrace.calls Effect.completionE
  match greetTrace.result with
  | none => ⟨.error "retry resolved to undefined", st, log3⟩
  | some (.error e) => ⟨.error e, st, log3⟩
  | some (.ok answer) => ⟨.ok (some ⟨[], [], answer⟩), st, log3⟩

/-- Intent classification and the branch decision (source lines 237-261). -/
def classifiedStage (o : Oracles) (query : String) (options : QueryEmbeddingsOptions)
    (st : SysState) (key : List Char) (queryVector : List Int) (log : List Effect) :
    TurnResult :=
  match analyzeUserIntent o query with
  | .error e => ⟨.error e, st, log ++ [Effect.classifyE]⟩
  | .ok intent =>
    let log2 := log ++ [Effect.classifyE]
    if greetingOnly intent then greetingStage o query st log2
    else retrievalStage o query options st key queryVector intent log2

/-- The retried embedding call (source line 236). -/
def embedStage (o : Oracles) (query : String) (options : QueryEmbeddingsOptions)
    (st : SysState) (key : List Char) : TurnResult :=
  let embedTrace := retry (fun _ => o.embedQuery query) 3
  let log1 := List.replicate embedTrace.calls Effect.embedE
  match embedTrace.result with
  | none => ⟨.error "retry resolved to undefined", st, log1⟩
  | some (.error e) => ⟨.error e, st, log1⟩
  | some (.ok queryVector) => classifiedStage o query options st key queryVector log1

/-- `queryEmbeddings` (source lines 217-333): dedup check, cache check,
then the staged body above. -/
def queryEmbeddings (o : Oracles) (query : String) (options : QueryEmbeddingsOptions)
    (st : SysState) : TurnResult :=
  if isSuppressed options st then ⟨.ok none, st, []⟩
  else
    let key := cacheKey query options
    match lookupCache st.cache key with
    | some cached => ⟨.ok (some cached), st, []⟩
    | none => embedStage o query options st key

/-- A successful constant operation is invoked once by `retry` and sleeps
never. -/
lemma retry3_ok {E T : Type} (v : T) :
    retry (E := E) (fun _ => Except.ok v) 3 = ⟨some (.ok v), 1, []⟩ := rfl

/-- A constantly failing operation is invoked three times by `retry` with
sleeps of 1000ms and 2000ms, and the error propagates. -/
lemma retry3_error {E T : Type} (e : E) :
    retry (T := T) (fun _ => Except.error e) 3 = ⟨some (.error e), 3, [1000, 2000]⟩ := rfl

/-! ## Stage shape lemmas

For every stage: the result is never the `null` sentinel, and on an error
result the state is untouched and the appended effects contain no memory
save. -/

/-- Shape invariant of a stage outcome relative to its input state and
input log. -/
def stageOk (t : TurnResult) (st : SysState) (log : List Effect) : Prop :=
  t.res ≠ .ok none ∧
    ∀ e, t.res = .error e →
      t.state = st ∧ ∃ ext, t.log = log ++ ext ∧ Effect.memSaveE ∉ ext

lemma log_ext_one (l A : List Effect) (hA : Effect.memSaveE ∉ A) :
    ∃ ext, l ++ A = l ++ ext ∧ Effect.memSaveE ∉ ext :=
  ⟨A, rfl, hA⟩

lemma log_ext_two (l A B : List Effect) (hA : Effect.memSaveE ∉ A) (hB : Effect.memSaveE ∉ B) :
    ∃ ext, (l ++ A) ++ B = l ++ ext ∧ Effect.memSaveE ∉ ext :=
  ⟨A ++ B, by simp, by simp [List.mem_append]; exact ⟨hA, hB⟩⟩

lemma generateStage_shape (o : Oracles) (query : String) (options : QueryEmbeddingsOptions)
    (st : SysState) (key : List Char) (intent : Intent) (contexts : List CtxEntry)
    (apiResults : List ApiResult) (log : List Effect) :
    stageOk (generateStage o query options st key intent contexts apiResults log) st log := by
  unfold stageOk
  simp only [generateStage]
  split
  · exact ⟨by simp, fun e he => ⟨rfl, log_ext_one log _ (by simp)⟩⟩
  · split
    · exact ⟨by simp, fun e he =>
        ⟨rfl, log_ext_two log _ _ (by simp) (by simp [List.mem_replicate])⟩⟩
    · exact ⟨by simp, fun e he =>
        ⟨rfl, log_ext_two log _ _ (by simp) (by simp [List.mem_replicate])⟩⟩
    · exact ⟨by simp, fun e he => absurd he (by simp)⟩

lemma not_memSave_ite_enrich (c : Prop) [Decidable c] :
    Effect.memSaveE ∉ (if c then [Effect.enrichE] else []) := by
  split <;> simp

lemma retrievalStage_shape (o : Oracles) (query : String) (options : QueryEmbeddingsOptions)
    (st : SysState) (key : List Char) (queryVector : List Int) (intent : Intent)
    (log : List Effect) :
    stageOk (retrievalStage o query options st key queryVector intent log) st log := by
  unfold stageOk
  simp only [retrievalStage]
  split
  · exact ⟨by simp, fun e he => ⟨rfl, log_ext_one log _ (by simp)⟩⟩
  · rename_i vsMatches heq1
    split
    · exact ⟨by simp, fun e he =>
        ⟨rfl, log_ext_two log _ _ (by simp) (not_memSave_ite_enrich _)⟩⟩
    · rename_i apiResults heq2
      have hg := generateStage_shape o query options st key intent
        (o.weightContextRelevance query
          (vsMatches.map fun m => ⟨m.text, m.language, m.score⟩))
        apiResults ((log ++ [Effect.vectorE]) ++
          (if options.enableAPIQuery = some true then [Effect.enrichE] else []))
      refine ⟨hg.1, fun e he => ?_⟩
      obtain ⟨hst, ext, hlog, hmem⟩ := hg.2 e he
      refine ⟨hst, ([Effect.vectorE] ++
        (if options.enableAPIQuery = some true then [Effect.enrichE] else [])) ++ ext, ?_, ?_⟩
      · rw [hlog]
        simp [List.append_assoc]
      · intro hc
        rcases List.mem_append.mp hc with h | h
        · rcases List.mem_append.mp h with h | h
          · simp at h
          · exact not_memSave_ite_enrich _ h
        · exact hmem h

lemma greetingStage_shape (o : Oracles) (query : String) (st : SysState) (log : List Effect) :
    stageOk (greetingStage o query st log) st log := by
  unfold stageOk
  simp only [greetingStage]
  split
  · exact ⟨by simp, fun e he => ⟨rfl, log_ext_one log _ (by simp [List.mem_replicate])⟩⟩
  · exact ⟨by simp, fun e he => ⟨rfl, log_ext_one log _ (by simp [List.mem_replicate])⟩⟩
  · exact ⟨by simp, fun e he => absurd he (by simp)⟩

lemma classifiedStage_shape (o : Oracles) (query : String) (options : QueryEmbeddingsOptions)
    (st : SysState) (key : List Char) (queryVector : List Int) (log : List Effect) :
    stageOk (classifiedStage o query options st key queryVector log) st log := by
  unfold stageOk
  simp only [classifiedStage]
  split
  · exact ⟨by simp, fun e he => ⟨rfl, log_ext_one log _ (by simp)⟩⟩
  · rename_i it heq
    split
    · have hg := greetingStage_shape o query st (log ++ [Effect.classifyE])
      refine ⟨hg.1, fun e he => ?_⟩
      obtain ⟨hst, ext, hlog, hmem⟩ := hg.2 e he
      refine ⟨hst, [Effect.classifyE] ++ ext, by rw [hlog]; simp, ?_⟩
      intro hc
      rcases List.mem_append.mp hc with h | h
      · simp at h
      · exact hmem h
    · have hg := retrievalStage_shape o query options st key queryVector it
        (log ++ [Effect.classifyE])
      refine ⟨hg.1, fun e he => ?_⟩
      obtain ⟨hst, ext, hlog, hmem⟩ := hg.2 e he
      refine ⟨hst, [Effect.classifyE] ++ ext, by rw [hlog]; simp, ?_⟩
      intro hc
      rcases List.mem_append.mp hc with h | h
      · simp at h
      · exact hmem h

lemma embedStage_shape (o : Oracles) (query : String) (options : QueryEmbeddingsOptions)
    (st : SysState) (key : List Char) :
    stageOk (embedStage o query options st key) st [] := by
  unfold stageOk
  simp only [embedStage]
  split
  · exact ⟨by simp, fun e he => ⟨rfl, _, rfl, by simp [List.mem_replicate]⟩⟩
  · exact ⟨by simp, fun e he => ⟨rfl, _, rfl, by simp [List.mem_replicate]⟩⟩
  · rename_i qv heq
    have hg := classifiedStage_shape o query options st key qv
      (List.replicate (retry (fun _ => o.embedQuery query) 3).calls Effect.embedE)
    refine ⟨hg.1, fun e he => ?_⟩
    obtain ⟨hst, ext, hlog, hmem⟩ := hg.2 e he
    refine ⟨hst, List.replicate (retry (fun _ => o.embedQuery query) 3).calls Effect.embedE ++ ext,
      by rw [hlog]; simp, ?_⟩
    intro hc
    rcases List.mem_append.mp hc with h | h
    · simp [List.mem_replicate] at h
    · exact hmem h

/-! ## Claim theorems over the pipeline -/

lemma isSuppressed_true_iff (opts : QueryEmbeddingsOptions) (st : SysState)
    (hmem : "" ∉ st.messageCache) :
    isSuppressed opts st = true ↔
      ∃ m, opts.messageId = some m ∧ m ∈ st.messageCache := by
  unfold isSuppressed
  cases hmi : opts.messageId with
  | none => simp
  | some m =>
    simp only [Bool.and_eq_true, bne_iff_ne, ne_eq]
    constructor
    · rintro ⟨h1, h2⟩
      exact ⟨m, rfl, by simpa using h2⟩
    · rintro ⟨m', hm', hmem'⟩
      obtain rfl : m = m' := Option.some.inj hm'
      refine ⟨fun hm0 => hmem (hm0 ▸ hmem'), by simpa using hmem'⟩

lemma isSuppressed_run (o : Oracles) (q : String) (opts : QueryEmbeddingsOptions)
    (st : SysState) (hs : isSuppressed opts st = true) :
    queryEmbeddings o q opts st = ⟨.ok none, st, []⟩ := by
  unfold queryEmbeddings
  rw [if_pos hs]

lemma queryEmbeddings_unsuppressed (o : Oracles) (q : String) (opts : QueryEmbeddingsOptions)
    (st : SysState) (hs : ¬ isSuppressed opts st = true) :
    queryEmbeddings o q opts st =
      match lookupCache st.cache (cacheKey q opts) with
      | some cached => ⟨.ok (some cached), st, []⟩
      | none => embedStage o q opts st (cacheKey q opts) := by
  unfold queryEmbeddings
  rw [if_neg hs]

lemma queryEmbeddings_res_ne_none (o : Oracles) (q : String) (opts : QueryEmbeddingsOptions)
    (st : SysState) (hs : ¬ isSuppressed opts st = true) :
    (queryEmbeddings o q opts st).res ≠ .ok none := by
  rw [queryEmbeddings_unsuppressed o q opts st hs]
  split
  · simp
  · exact (embedStage_shape o q opts st (cacheKey q opts)).1

/-- C5: `queryEmbeddings` returns `null` (modelled `.ok none`) precisely when
`options.messageId` is present and already marked seen in the dedup cache;
and a suppressed call short-circuits completely: the state is untouched and
no collaborator (embedding, classification, retrieval, generation, cache
write, memory access) is invoked.  The hypothesis is the dedup-cache
invariant that the empty string is never marked seen — the code marks only
truthy message ids. -/
theorem queryEmbeddings_null_iff_dedup (o : Oracles) (q : String)
    (opts : QueryEmbeddingsOptions) (st : SysState) (hmem : "" ∉ st.messageCache) :
    ((queryEmbeddings o q opts st).res = .ok none ↔
      ∃ m, opts.messageId = some m ∧ m ∈ st.messageCache) ∧
    (∀ m, opts.messageId = some m → m ∈ st.messageCache →
      queryEmbeddings o q opts st = ⟨.ok none, st, []⟩) := by
  by_cases hs : isSuppressed opts st = true
  · have hrun := isSuppressed_run o q opts st hs
    exact ⟨⟨fun _ => (isSuppressed_true_iff opts st hmem).mp hs, fun _ => by rw [hrun]⟩,
      fun m _ _ => hrun⟩
  · have hns : ¬ ∃ m, opts.messageId = some m ∧ m ∈ st.messageCache :=
      fun hex => hs ((isSuppressed_true_iff opts st hmem).mpr hex)
    exact ⟨⟨fun hres => absurd hres (queryEmbeddings_res_ne_none o q opts st hs),
      fun hex => absurd hex hns⟩,
      fun m hm hmem' => absurd ⟨m, hm, hmem'⟩ hns⟩

/-- Closed instance of `queryEmbeddings_null_iff_dedup` on a state whose
dedup cache has seen message id `"m1"`. -/
theorem queryEmbeddings_null_iff_dedup_witness :
    "" ∉ (SysState.mk [] ["m1"] []).messageCache ∧
      queryEmbeddings
          { systemPrompt := "s", embedQuery := fun _ => .ok [1],
            classify := fun _ => .ok ⟨false, false, true, "payment"⟩,
            chatCompletion := fun _ _ => .ok "Here is help.",
            mongoKnnSearch := fun _ _ => .ok [⟨"doc1", "en", 5⟩],
            pineconeQuery := fun _ _ => .ok [],
            queryExternalAPI := mockExternalAPI,
            summarizeChatHistory := fun _ => .ok "summary",
            weightContextRelevance := fun _ ctxs => ctxs,
            formatContexts := fun _ => "ctxs" }
          "help me" { messageId := some "m1" } (SysState.mk [] ["m1"] [])
        = ⟨.ok none, SysState.mk [] ["m1"] [], []⟩ := by
  refine ⟨by decide, ?_⟩
  exact (queryEmbeddings_null_iff_dedup _ "help me" { messageId := some "m1" }
      (SysState.mk [] ["m1"] []) (by decide)).2 "m1" rfl (by decide)

/-- C7: when any stage of a turn fails (the result is a propagated error),
no state is mutated: the result cache, the dedup cache and the conversation
memory all remain exactly as before the call, and in particular no memory
save is performed. -/
theorem queryEmbeddings_failure_frame (o : Oracles) (q : String)
    (opts : QueryEmbeddingsOptions) (st : SysState) (e : String)
    (h : (queryEmbeddings o q opts st).res = .error e) :
    (queryEmbeddings o q opts st).state = st ∧
      Effect.memSaveE ∉ (queryEmbeddings o q opts st).log := by
  by_cases hs : isSuppressed opts st = true
  · rw [isSuppressed_run o q opts st hs] at h
    exact absurd h (by simp)
  · rw [queryEmbeddings_unsuppressed o q opts st hs] at h ⊢
    revert h
    split
    · intro h
      exact absurd h (by simp)
    · intro h
      obtain ⟨hst, ext, hlog, hmem⟩ := (embedStage_shape o q opts st (cacheKey q opts)).2 e h
      exact ⟨hst, by rw [hlog]; simpa using hmem⟩

/-- Closed instance of `queryEmbeddings_failure_frame`: a turn whose
generation stage always fails propagates the error and leaves the state
unchanged. -/
theorem queryEmbeddings_failure_frame_witness :
    (queryEmbeddings
        { systemPrompt := "s", embedQuery := fun _ => .ok [1],
          classify := fun _ => .ok ⟨false, false, true, "payment"⟩,
          chatCompletion := fun _ _ => .error "model unavailable",
          mongoKnnSearch := fun _ _ => .ok [⟨"doc1", "en", 5⟩],
          pineconeQuery := fun _ _ => .ok [],
          queryExternalAPI := mockExternalAPI,
          summarizeChatHistory := fun _ => .ok "summary",
          weightContextRelevance := fun _ ctxs => ctxs,
          formatContexts := fun _ => "ctxs" }
        "help me" {} (SysState.mk [] [] [])).res = .error "model unavailable" ∧
      (queryEmbeddings
        { systemPrompt := "s", embedQuery := fun _ => .ok [1],
          classify := fun _ => .ok ⟨false, false, true, "payment"⟩,
          chatCompletion := fun _ _ => .error "model unavailable",
          mongoKnnSearch := fun _ _ => .ok [⟨"doc1", "en", 5⟩],
          pineconeQuery := fun _ _ => .ok [],
          queryExternalAPI := mockExternalAPI,
          summarizeChatHistory := fun _ => .ok "summary",
          weightContextRelevance := fun _ ctxs => ctxs,
          formatContexts := fun _ => "ctxs" }
        "help me" {} (SysState.mk [] [] [])).state = SysState.mk [] [] [] := by
  refine ⟨by decide, ?_⟩
  exact (queryEmbeddings_failure_frame _ "help me" {} (SysState.mk [] [] [])
      "model unavailable" (by decide)).1

/-- A concrete collaborator assignment used by the closed instances below:
every collaborator succeeds, `"hello"` classifies as a pure greeting, and
anything else as a support request. -/
def demoOracles : Oracles where
  systemPrompt := "s"
  embedQuery := fun _ => .ok [1]
  classify := fun q =>
    if q = "hello" then .ok ⟨true, false, false, "none"⟩
    else .ok ⟨false, false, true, "payment"⟩
  chatCompletion := fun _ _ => .ok "Here is help."
  mongoKnnSearch := fun _ _ => .ok [⟨"doc1", "en", 5⟩]
  pineconeQuery := fun _ _ => .ok []
  queryExternalAPI := mockExternalAPI
  summarizeChatHistory := fun _ => .ok "summary"
  weightContextRelevance := fun _ ctxs => ctxs
  formatContexts := fun _ => "ctxs"

/-- C4 (failing evaluation): with requested `topK = 1` and three candidates
arriving with scores 1, 2, 3, the mongodb branch of `queryVectorStore`
keeps only positions `0..topK` of the concatenated results before sorting
(`filter((_, index) => index <= topK)`), so it returns the score-2 match
while the excluded score-3 candidate is strictly better.  The spec's
global sort-then-truncate contract would return the score-3 match. -/
theorem queryVectorStore_mongodb_drops_best :
    queryVectorStore
        { demoOracles with
            mongoKnnSearch := fun _ _ =>
              .ok [⟨"a", "en", 1⟩, ⟨"b", "en", 2⟩, ⟨"c", "en", 3⟩] }
        "mongodb" [1] ⟨some 1⟩
      = .ok [⟨"b", "en", 2⟩] := by decide

lemma queryEmbeddings_cache_miss (o : Oracles) (q : String) (opts : QueryEmbeddingsOptions)
    (st : SysState) (hs : ¬ isSuppressed opts st = true)
    (hc : lookupCache st.cache (cacheKey q opts) = none) :
    queryEmbeddings o q opts st = embedStage o q opts st (cacheKey q opts) := by
  rw [queryEmbeddings_unsuppressed o q opts st hs, hc]

/-- C8: on a turn that actually classifies (no dedup suppression, no cache
hit) and whose classified intent is `{isGreeting: true, hasQuestion: false,
needsSupport: false}`, the turn performs no vector-store query, no
enrichment call, and no memory read or write; the state is untouched; and
any returned response has empty `matches` and empty `apiResults`. -/
theorem greeting_branch_purity (o : Oracles) (q : String) (opts : QueryEmbeddingsOptions)
    (st : SysState) (topic : String)
    (hs : ¬ isSuppressed opts st = true)
    (hc : lookupCache st.cache (cacheKey q opts) = none)
    (hcl : analyzeUserIntent o q = .ok ⟨true, false, false, topic⟩) :
    (Effect.vectorE ∉ (queryEmbeddings o q opts st).log ∧
      Effect.enrichE ∉ (queryEmbeddings o q opts st).log ∧
      Effect.memLoadE ∉ (queryEmbeddings o q opts st).log ∧
      Effect.memSaveE ∉ (queryEmbeddings o q opts st).log) ∧
    (queryEmbeddings o q opts st).state = st ∧
    ∀ r, (queryEmbeddings o q opts st).res = .ok (some r) →
      r.matches' = [] ∧ r.apiResults = [] := by
  rw [queryEmbeddings_cache_miss o q opts st hs hc]
  simp only [embedStage]
  split
  · exact ⟨⟨by simp [List.mem_replicate], by simp [List.mem_replicate],
      by simp [List.mem_replicate], by simp [List.mem_replicate]⟩, rfl, by simp⟩
  · exact ⟨⟨by simp [List.mem_replicate], by simp [List.mem_replicate],
      by simp [List.mem_replicate], by simp [List.mem_replicate]⟩, rfl, by simp⟩
  · simp only [classifiedStage, hcl, greetingOnly, Bool.not_false, Bool.and_self, if_pos]
    simp only [greetingStage]
    split
    · exact ⟨⟨by simp [List.mem_append, List.mem_replicate],
        by simp [List.mem_append, List.mem_replicate],
        by simp [List.mem_append, List.mem_replicate],
        by simp [List.mem_append, List.mem_replicate]⟩, rfl, by simp⟩
    · exact ⟨⟨by simp [List.mem_append, List.mem_replicate],
        by simp [List.mem_append, List.mem_replicate],
        by simp [List.mem_append, List.mem_replicate],
        by simp [List.mem_append, List.mem_replicate]⟩, rfl, by simp⟩
    · refine ⟨⟨by simp [List.mem_append, List.mem_replicate],
        by simp [List.mem_append, List.mem_replicate],
        by simp [List.mem_append, List.mem_replicate],
        by simp [List.mem_append, List.mem_replicate]⟩, rfl, ?_⟩
      intro r hr
      obtain rfl : (⟨[], [], _⟩ : QueryResponse) = r := by
        simpa using hr
      exact ⟨rfl, rfl⟩

/-- How a stage may change the dedup cache: not at all, or by marking the
turn's truthy message id. -/
def dedupChange (opts : QueryEmbeddingsOptions) (st : SysState) (t : TurnResult) : Prop :=
  t.state.messageCache = st.messageCache ∨
    ∃ m, opts.messageId = some m ∧ m ≠ "" ∧ t.state.messageCache = m :: st.messageCache

lemma markSeen_messageCache (opts : QueryEmbeddingsOptions) (st : SysState) :
    (markSeen opts st).messageCache = st.messageCache ∨
      ∃ m, opts.messageId = some m ∧ m ≠ "" ∧
        (markSeen opts st).messageCache = m :: st.messageCache := by
  unfold markSeen
  cases hmi : opts.messageId with
  | none => exact Or.inl rfl
  | some m =>
    by_cases hm : m ≠ ""
    · exact Or.inr ⟨m, rfl, hm, by simp [hm]⟩
    · exact Or.inl (by simp [hm])

lemma generateStage_dedupChange (o : Oracles) (q : String) (opts : QueryEmbeddingsOptions)
    (st : SysState) (key : List Char) (it : Intent) (ctxs : List CtxEntry)
    (apiR : List ApiResult) (log : List Effect) :
    dedupChange opts st (generateStage o q opts st key it ctxs apiR log) := by
  unfold dedupChange
  simp only [generateStage]
  split
  · exact Or.inl rfl
  · split
    · exact Or.inl rfl
    · exact Or.inl rfl
    · rename_i ans heq
      rcases markSeen_messageCache opts { st with memory := memSave st.memory opts.userId q ans }
        with h | ⟨m, h1, h2, h3⟩
      · exact Or.inl h
      · exact Or.inr ⟨m, h1, h2, h3⟩

lemma retrievalStage_dedupChange (o : Oracles) (q : String) (opts : QueryEmbeddingsOptions)
    (st : SysState) (key : List Char) (qv : List Int) (it : Intent) (log : List Effect) :
    dedupChange opts st (retrievalStage o q opts st key qv it log) := by
  unfold retrievalStage
  split
  · exact Or.inl rfl
  · rename_i vsMatches heq1
    simp only []
    split
    · exact Or.inl rfl
    · exact generateStage_dedupChange o q opts st key it _ _ _

lemma greetingStage_dedupChange (o : Oracles) (q : String)
    (opts : QueryEmbeddingsOptions) (st : SysState) (log : List Effect) :
    dedupChange opts st (greetingStage o q st log) := by
  unfold dedupChange
  simp only [greetingStage]
  split <;> exact Or.inl rfl

lemma classifiedStage_dedupChange (o : Oracles) (q : String)
    (opts : QueryEmbeddingsOptions) (st : SysState) (key : List Char) (qv : List Int)
    (log : List Effect) :
    dedupChange opts st (classifiedStage o q opts st key qv log) := by
  unfold classifiedStage
  split
  · exact Or.inl rfl
  · rename_i it heq
    simp only []
    split
    · exact greetingStage_dedupChange o q opts st _
    · exact retrievalStage_dedupChange o q opts st key qv it _

lemma embedStage_dedupChange (o : Oracles) (q : String) (opts : QueryEmbeddingsOptions)
    (st : SysState) (key : List Char) :
    dedupChange opts st (embedStage o q opts st key) := by
  unfold embedStage
  simp only []
  split
  · exact Or.inl rfl
  · exact Or.inl rfl
  · exact classifiedStage_dedupChange o q opts st key _ _

/-- The dedup cache invariant used by `queryEmbeddings_null_iff_dedup` is
preserved by every turn: the empty string is never marked seen, because the
code marks only truthy message ids. -/
lemma queryEmbeddings_preserves_dedup_invariant (o : Oracles) (q : String)
    (opts : QueryEmbeddingsOptions) (st : SysState) (hmem : "" ∉ st.messageCache) :
    "" ∉ (queryEmbeddings o q opts st).state.messageCache := by
  by_cases hs : isSuppressed opts st = true
  · rw [isSuppressed_run o q opts st hs]
    exact hmem
  · rw [queryEmbeddings_unsuppressed o q opts st hs]
    split
    · exact hmem
    · rcases embedStage_dedupChange o q opts st (cacheKey q opts) with h | ⟨m, _, hm, h3⟩
      · rw [h]; exact hmem
      · rw [h3]
        intro hc
        rcases List.mem_cons.mp hc with hc | hc
        · exact hm hc.symm
        · exact hmem hc

lemma queryEmbeddings_cache_hit (o : Oracles) (q : String) (opts : QueryEmbeddingsOptions)
    (st : SysState) (r : QueryResponse) (hs : ¬ isSuppressed opts st = true)
    (hc : lookupCache st.cache (cacheKey q opts) = some r) :
    queryEmbeddings o q opts st = ⟨.ok (some r), st, []⟩ := by
  rw [queryEmbeddings_unsuppressed o q opts st hs, hc]

lemma embedStage_ok (o : Oracles) (q : String) (opts : QueryEmbeddingsOptions)
    (st : SysState) (key : List Char) (qv : List Int) (he : o.embedQuery q = .ok qv) :
    embedStage o q opts st key = classifiedStage o q opts st key qv [Effect.embedE] := by
  simp only [embedStage, he, retry3_ok, List.replicate_one]

lemma classifiedStage_nongreeting (o : Oracles) (q : String) (opts : QueryEmbeddingsOptions)
    (st : SysState) (key : List Char) (qv : List Int) (it : Intent) (log : List Effect)
    (hcl : analyzeUserIntent o q = .ok it) (hng : greetingOnly it = false) :
    classifiedStage o q opts st key qv log =
      retrievalStage o q opts st key qv it (log ++ [Effect.classifyE]) := by
  simp only [classifiedStage, hcl, hng]
  rfl

lemma queryVectorStore_mongodb_ok (o : Oracles) (qv : List Int)
    (vopts : QueryVectorStoreOptions) (docs : List VSResult)
    (hv : o.mongoKnnSearch qv (orDefault5 vopts.topK) = .ok docs) :
    queryVectorStore o "mongodb" qv vopts
      = .ok (mongoTopK docs (orDefault5 vopts.topK)) := by
  unfold queryVectorStore
  rw [if_neg (by decide), if_pos rfl, hv]

/-- The retrieval branch under succeeding collaborators: the returned
response is built from the weighted contexts, the enrichment payload (when
enabled) and the completion text, the memory gains the turn, the message id
is marked, and the response is stored in the result cache under `key`. -/
lemma retrievalStage_success (o : Oracles) (q : String) (opts : QueryEmbeddingsOptions)
    (st : SysState) (key : List Char) (qv : List Int) (it : Intent) (log : List Effect)
    (docs : List VSResult) (apiR : List ApiResult) (smry ans : String)
    (hv : o.mongoKnnSearch qv (orDefault5 opts.topK) = .ok docs)
    (hen : ∀ n p, o.queryExternalAPI n p = .ok apiR)
    (hsum : ∀ h, o.summarizeChatHistory h = .ok smry)
    (hgen : ∀ c, o.chatCompletion o.systemPrompt c = .ok ans) :
    retrievalStage o q opts st key qv it log =
      ⟨.ok (some ⟨o.weightContextRelevance q
            ((mongoTopK docs (orDefault5 opts.topK)).map fun m => ⟨m.text, m.language, m.score⟩),
          (if opts.enableAPIQuery = some true then apiR else []), ans⟩),
        { markSeen opts { st with memory := memSave st.memory opts.userId q ans } with
            cache := (key, ⟨o.weightContextRelevance q
                ((mongoTopK docs (orDefault5 opts.topK)).map fun m =>
                  ⟨m.text, m.language, m.score⟩),
              (if opts.enableAPIQuery = some true then apiR else []), ans⟩) ::
              (markSeen opts { st with memory := memSave st.memory opts.userId q ans }).cache },
        (((log ++ [Effect.vectorE]) ++
          (if opts.enableAPIQuery = some true then [Effect.enrichE] else [])) ++
          [Effect.memLoadE, Effect.summarizeE]) ++ [Effect.completionE] ++ [Effect.memSaveE]⟩ := by
  have hvs := queryVectorStore_mongodb_ok o qv ⟨opts.topK⟩ docs hv
  by_cases hapi : opts.enableAPIQuery = some true
  · simp only [retrievalStage, hvs, hapi, if_pos, hen, generateStage, hsum, hgen, retry3_ok,
      List.replicate_one]
  · simp only [retrievalStage, hvs, if_neg hapi, hen, generateStage, hsum, hgen, retry3_ok,
      List.replicate_one]

lemma lookupCache_cons_self (k : List Char) (v : QueryResponse)
    (rest : List (List Char × QueryResponse)) :
    lookupCache ((k, v) :: rest) k = some v := by
  simp [lookupCache]

lemma isSuppressed_of_no_messageId (opts : QueryEmbeddingsOptions) (st : SysState)
    (hmid : opts.messageId = none) : ¬ isSuppressed opts st = true := by
  simp [isSuppressed, hmid]

/-- C1 (amended part): on a successful non-suppressed retrieval-branch turn
whose options carry no `messageId`, the response is stored in the result
cache under the turn's cache key before returning, and a second call with
identical `(query, options)` within the cache TTL returns the identical
`QueryResponse` from the cache, with the state unchanged and an empty
effect log — in particular without issuing a second completion call.  (The
greeting branch, by contrast, returns without caching; see the
counterexample.) -/
theorem retrieval_turn_cached_and_idempotent (o : Oracles) (q : String)
    (opts : QueryEmbeddingsOptions) (st : SysState) (qv : List Int) (it : Intent)
    (docs : List VSResult) (apiR : List ApiResult) (smry ans : String)
    (hmid : opts.messageId = none)
    (hc : lookupCache st.cache (cacheKey q opts) = none)
    (he : o.embedQuery q = .ok qv)
    (hcl : analyzeUserIntent o q = .ok it)
    (hng : greetingOnly it = false)
    (hv : o.mongoKnnSearch qv (orDefault5 opts.topK) = .ok docs)
    (hen : ∀ n p, o.queryExternalAPI n p = .ok apiR)
    (hsum : ∀ h, o.summarizeChatHistory h = .ok smry)
    (hgen : ∀ c, o.chatCompletion o.systemPrompt c = .ok ans) :
    ∃ r, (queryEmbeddings o q opts st).res = .ok (some r) ∧
      lookupCache (queryEmbeddings o q opts st).state.cache (cacheKey q opts) = some r ∧
      queryEmbeddings o q opts (queryEmbeddings o q opts st).state
        = ⟨.ok (some r), (queryEmbeddings o q opts st).state, []⟩ := by
  have hs := isSuppressed_of_no_messageId opts st hmid
  have hrun : queryEmbeddings o q opts st
      = retrievalStage o q opts st (cacheKey q opts) qv it [Effect.embedE, Effect.classifyE] := by
    rw [queryEmbeddings_cache_miss o q opts st hs hc,
      embedStage_ok o q opts st (cacheKey q opts) qv he,
      classifiedStage_nongreeting o q opts st (cacheKey q opts) qv it [Effect.embedE] hcl hng]
    rfl
  rw [hrun, retrievalStage_success o q opts st (cacheKey q opts) qv it
    [Effect.embedE, Effect.classifyE] docs apiR smry ans hv hen hsum hgen]
  refine ⟨_, rfl, ?_, ?_⟩
  · exact lookupCache_cons_self _ _ _
  · exact queryEmbeddings_cache_hit o q opts _ _
      (isSuppressed_of_no_messageId opts _ hmid) (lookupCache_cons_self _ _ _)

/-- Closed instance of `retrieval_turn_cached_and_idempotent` on the demo
collaborators: the support query is answered, cached, and served from the
cache on the second call with no further effects. -/
theorem retrieval_turn_cached_and_idempotent_witness :
    ∃ r, (queryEmbeddings demoOracles "help me" {} (SysState.mk [] [] [])).res
        = .ok (some r) ∧
      lookupCache (queryEmbeddings demoOracles "help me" {} (SysState.mk [] [] [])).state.cache
          (cacheKey "help me" {}) = some r ∧
      queryEmbeddings demoOracles "help me" {}
          (queryEmbeddings demoOracles "help me" {} (SysState.mk [] [] [])).state
        = ⟨.ok (some r),
            (queryEmbeddings demoOracles "help me" {} (SysState.mk [] [] [])).state, []⟩ :=
  retrieval_turn_cached_and_idempotent demoOracles "help me" {} (SysState.mk [] [] [])
    [1] ⟨false, false, true, "payment"⟩ [⟨"doc1", "en", 5⟩] [⟨"Mock API response"⟩]
    "summary" "Here is help."
    rfl (by decide) rfl (by decide) (by decide) rfl
    (fun n p => rfl) (fun h => rfl) (fun c => rfl)

/-- C1 (counterexample): a pure-greeting turn returns without writing the
result cache, so a second identical call does not find a cached entry and
issues a completion call again. -/
theorem greeting_turn_not_cached :
    (queryEmbeddings demoOracles "hello" {} (SysState.mk [] [] [])).res
        = .ok (some ⟨[], [], "Here is help."⟩) ∧
      lookupCache (queryEmbeddings demoOracles "hello" {} (SysState.mk [] [] [])).state.cache
          (cacheKey "hello" {}) = none ∧
      Effect.completionE ∈
        (queryEmbeddings demoOracles "hello" {}
          (queryEmbeddings demoOracles "hello" {} (SysState.mk [] [] [])).state).log := by
  decide

/-- C2 (counterexample): the pipeline awaits the enrichment call with no
`try`/`catch`, so a failing enrichment call fails the whole turn: the error
propagates, nothing is cached, and no answer is generated — the pipeline
does not proceed with empty `apiResults`. -/
theorem enrichment_failure_fails_turn :
    queryEmbeddings { demoOracles with queryExternalAPI := fun _ _ => .error "enrich down" }
        "help me" { enableAPIQuery := some true } (SysState.mk [] [] [])
      = ⟨.error "enrich down", SysState.mk [] [] [],
          [Effect.embedE, Effect.classifyE, Effect.vectorE, Effect.enrichE]⟩ := by
  decide

/-- C2 (amended part): the repository's own `queryExternalAPI` never fails
(it returns the mock payload), so with it in place an enrichment-enabled
turn whose other stages succeed produces a successful cached answer whose
`apiResults` is the mock payload. -/
theorem enrichment_mock_turn_succeeds (o : Oracles) (q : String)
    (opts : QueryEmbeddingsOptions) (st : SysState) (qv : List Int) (it : Intent)
    (docs : List VSResult) (smry ans : String)
    (hmock : ∀ n p, o.queryExternalAPI n p = mockExternalAPI n p)
    (hapi : opts.enableAPIQuery = some true)
    (hs : ¬ isSuppressed opts st = true)
    (hc : lookupCache st.cache (cacheKey q opts) = none)
    (he : o.embedQuery q = .ok qv)
    (hcl : analyzeUserIntent o q = .ok it)
    (hng : greetingOnly it = false)
    (hv : o.mongoKnnSearch qv (orDefault5 opts.topK) = .ok docs)
    (hsum : ∀ h, o.summarizeChatHistory h = .ok smry)
    (hgen : ∀ c, o.chatCompletion o.systemPrompt c = .ok ans) :
    ∃ r, (queryEmbeddings o q opts st).res = .ok (some r) ∧
      r.apiResults = [⟨"Mock API response"⟩] ∧ r.answer = ans ∧
      lookupCache (queryEmbeddings o q opts st).state.cache (cacheKey q opts) = some r := by
  have hen : ∀ n p, o.queryExternalAPI n p = .ok [⟨"Mock API response"⟩] :=
    fun n p => hmock n p
  have hrun : queryEmbeddings o q opts st
      = retrievalStage o q opts st (cacheKey q opts) qv it [Effect.embedE, Effect.classifyE] := by
    rw [queryEmbeddings_cache_miss o q opts st hs hc,
      embedStage_ok o q opts st (cacheKey q opts) qv he,
      classifiedStage_nongreeting o q opts st (cacheKey q opts) qv it [Effect.embedE] hcl hng]
    rfl
  rw [hrun, retrievalStage_success o q opts st (cacheKey q opts) qv it
    [Effect.embedE, Effect.classifyE] docs [⟨"Mock API response"⟩] smry ans hv hen hsum hgen]
  exact ⟨_, rfl, by rw [if_pos hapi], rfl, lookupCache_cons_self _ _ _⟩

/-- Closed instance of `enrichment_mock_turn_succeeds` on the demo
collaborators with enrichment enabled. -/
theorem enrichment_mock_turn_succeeds_witness :
    ∃ r, (queryEmbeddings demoOracles "help me" { enableAPIQuery := some true }
          (SysState.mk [] [] [])).res = .ok (some r) ∧
      r.apiResults = [⟨"Mock API response"⟩] ∧ r.answer = "Here is help." ∧
      lookupCache (queryEmbeddings demoOracles "help me" { enableAPIQuery := some true }
            (SysState.mk [] [] [])).state.cache
          (cacheKey "help me" { enableAPIQuery := some true }) = some r :=
  enrichment_mock_turn_succeeds demoOracles "help me" { enableAPIQuery := some true }
    (SysState.mk [] [] []) [1] ⟨false, false, true, "payment"⟩ [⟨"doc1", "en", 5⟩]
    "summary" "Here is help."
    (fun n p => rfl) rfl (by decide) (by decide) rfl (by decide) (by decide) rfl
    (fun h => rfl) (fun c => rfl)

/-- C9 (counterexample): the code never checks the completion text, so an
empty completion flows through unchanged and `queryEmbeddings` returns a
response whose `answer` is the empty string. -/
theorem empty_completion_returned :
    (queryEmbeddings { demoOracles with chatCompletion := fun _ _ => .ok "" }
        "help me" {} (SysState.mk [] [] [])).res
      = .ok (some ⟨[⟨"doc1", "en", 5⟩], [], ""⟩) := by
  decide

lemma retry3_result_eq {E T : Type} (f : Except E T) (x : Except E T)
    (h : (retry (fun _ => f) 3).result = some x) : f = x := by
  cases f with
  | ok v =>
    rw [retry3_ok] at h
    exact Option.some.inj h
  | error e =>
    rw [retry3_error] at h
    exact Option.some.inj h

lemma greetingStage_answer (o : Oracles) (q : String) (st : SysState) (log : List Effect)
    (r : QueryResponse) (h : (greetingStage o q st log).res = .ok (some r)) :
    o.chatCompletion o.systemPrompt (greetingUserContent q) = .ok r.answer := by
  revert h
  simp only [greetingStage]
  split
  · intro h; exact absurd h (by simp)
  · intro h; exact absurd h (by simp)
  · rename_i ans heq
    intro h
    obtain rfl : (⟨[], [], ans⟩ : QueryResponse) = r := Option.some.inj (Except.ok.inj h)
    exact retry3_result_eq _ _ heq

lemma generateStage_answer (o : Oracles) (q : String) (opts : QueryEmbeddingsOptions)
    (st : SysState) (key : List Char) (it : Intent) (ctxs : List CtxEntry)
    (apiR : List ApiResult) (log : List Effect) (r : QueryResponse)
    (h : (generateStage o q opts st key it ctxs apiR log).res = .ok (some r)) :
    ∃ c, o.chatCompletion o.systemPrompt c = .ok r.answer := by
  revert h
  simp only [generateStage]
  split
  · intro h; exact absurd h (by simp)
  · split
    · intro h; exact absurd h (by simp)
    · intro h; exact absurd h (by simp)
    · rename_i ans heq
      intro h
      obtain rfl : (⟨ctxs, apiR, ans⟩ : QueryResponse) = r := Option.some.inj (Except.ok.inj h)
      exact ⟨_, retry3_result_eq _ _ heq⟩

lemma retrievalStage_answer (o : Oracles) (q : String) (opts : QueryEmbeddingsOptions)
    (st : SysState) (key : List Char) (qv : List Int) (it : Intent) (log : List Effect)
    (r : QueryResponse)
    (h : (retrievalStage o q opts st key qv it log).res = .ok (some r)) :
    ∃ c, o.chatCompletion o.systemPrompt c = .ok r.answer := by
  revert h
  simp only [retrievalStage]
  split
  · intro h; exact absurd h (by simp)
  · split
    · intro h; exact absurd h (by simp)
    · intro h
      exact generateStage_answer _ _ _ _ _ _ _ _ _ _ h

lemma classifiedStage_answer (o : Oracles) (q : String) (opts : QueryEmbeddingsOptions)
    (st : SysState) (key : List Char) (qv : List Int) (log : List Effect)
    (r : QueryResponse)
    (h : (classifiedStage o q opts st key qv log).res = .ok (some r)) :
    ∃ c, o.chatCompletion o.systemPrompt c = .ok r.answer := by
  revert h
  simp only [classifiedStage]
  split
  · intro h; exact absurd h (by simp)
  · split
    · intro h
      exact ⟨greetingUserContent q, greetingStage_answer _ _ _ _ _ h⟩
    · intro h
      exact retrievalStage_answer _ _ _ _ _ _ _ _ _ h

lemma embedStage_answer (o : Oracles) (q : String) (opts : QueryEmbeddingsOptions)
    (st : SysState) (key : List Char) (r : QueryResponse)
    (h : (embedStage o q opts st key).res = .ok (some r)) :
    ∃ c, o.chatCompletion o.systemPrompt c = .ok r.answer := by
  revert h
  simp only [embedStage]
  split
  · intro h; exact absurd h (by simp)
  · intro h; exact absurd h (by simp)
  · intro h
    exact classifiedStage_answer _ _ _ _ _ _ _ _ h

/-- C9 (amended part): every `QueryResponse` a non-cached path returns
carries exactly a completion's text as its `answer` (greeting and full path
alike), so whenever the completion collaborator returns only non-empty text
and every unexpired cache entry has a non-empty answer, every returned
response has a non-empty answer.  The code itself performs no emptiness
check — see the counterexample for an empty completion flowing through. -/
theorem answer_nonempty_of_completions_nonempty (o : Oracles) (q : String)
    (opts : QueryEmbeddingsOptions) (st : SysState) (r : QueryResponse)
    (hcompl : ∀ s c a, o.chatCompletion s c = .ok a → a ≠ "")
    (hcache : ∀ k v, lookupCache st.cache k = some v → v.answer ≠ "")
    (hr : (queryEmbeddings o q opts st).res = .ok (some r)) :
    r.answer ≠ "" := by
  by_cases hs : isSuppressed opts st = true
  · rw [isSuppressed_run o q opts st hs] at hr
    exact absurd hr (by simp)
  · rw [queryEmbeddings_unsuppressed o q opts st hs] at hr
    revert hr
    split
    · rename_i cached heq
      intro hr
      obtain rfl : cached = r := Option.some.inj (Except.ok.inj hr)
      exact hcache _ _ heq
    · intro hr
      obtain ⟨c, hcc⟩ := embedStage_answer _ _ _ _ _ _ hr
      exact hcompl _ _ _ hcc

/-- Closed instance of `answer_nonempty_of_completions_nonempty` on the demo
collaborators, whose completions are always the non-empty
`"Here is help."`. -/
theorem answer_nonempty_witness :
    (⟨[⟨"doc1", "en", 5⟩], [], "Here is help."⟩ : QueryResponse).answer ≠ "" :=
  answer_nonempty_of_completions_nonempty demoOracles "help me" {} (SysState.mk [] [] [])
    ⟨[⟨"doc1", "en", 5⟩], [], "Here is help."⟩
    (fun s c a ha => by
      have h2 : "Here is help." = a := Except.ok.inj ha
      rw [← h2]
      decide)
    (fun k v hv => by simp [lookupCache] at hv)
    (by decide)

/-- Closed instance of `greeting_branch_purity`: the query `"hello"` on the
demo collaborators from the empty state. -/
theorem greeting_branch_purity_witness :
    (Effect.vectorE ∉ (queryEmbeddings demoOracles "hello" {} (SysState.mk [] [] [])).log ∧
      Effect.enrichE ∉ (queryEmbeddings demoOracles "hello" {} (SysState.mk [] [] [])).log ∧
      Effect.memLoadE ∉ (queryEmbeddings demoOracles "hello" {} (SysState.mk [] [] [])).log ∧
      Effect.memSaveE ∉ (queryEmbeddings demoOracles "hello" {} (SysState.mk [] [] [])).log) ∧
    (queryEmbeddings demoOracles "hello" {} (SysState.mk [] [] [])).state = SysState.mk [] [] [] ∧
    ∀ r, (queryEmbeddings demoOracles "hello" {} (SysState.mk [] [] [])).res = .ok (some r) →
      r.matches' = [] ∧ r.apiResults = [] :=
  greeting_branch_purity demoOracles "hello" {} (SysState.mk [] [] []) "none"
    (by decide) (by decide) (by decide)

end QueryService
